import Mathlib

/-!
Verification of the GaodeAtlas-Shp geometry pipeline.

Shallow embedding of the repository's Python sources:
  * `geometry_utils.py` — shape-string codec, GCJ-02 → WGS-84 transform,
    view normalizer, GeoJSON interchange helpers;
  * `models.py` — `MiningShape`, `PlaceDetail`;
  * `gaode_client.py` — `GaodeClient.build_place_from_payload`;
  * `exporters.py` — `GeoJSONExporter.export_batch`, `ShapefileExporter.export_batch`.

Modelling conventions:
  * Python `float` values are embedded as `ℚ` (exact arithmetic; the
    transcendental functions `math.sin`, `math.cos`, `math.sqrt` are
    abstracted as a `TrigOps` parameter so every definition stays
    executable);
  * Python strings are embedded as `List Char` (`PyStr`), which keeps
    `str.split` / `str.strip` and the decimal formatting kernel-computable;
  * Python exceptions are embedded as `Except PyErr`.
-/

/-- Python strings are modelled as lists of characters. -/
abbrev PyStr := List Char

/-- Coordinates are (longitude, latitude) pairs; Python floats are modelled
as exact rationals. -/
abbrev Coordinate := ℚ × ℚ

namespace PyStrOps

/-- Models Python's single-character `str.split(sep)`: splits at every
occurrence of `sep`, keeping empty segments (`"".split(sep) == [""]`). -/
def pySplit (sep : Char) : PyStr → List PyStr
  | [] => [[]]
  | c :: rest =>
    if c = sep then [] :: pySplit sep rest
    else
      match pySplit sep rest with
      | [] => [[c]]
      | r :: rs => (c :: r) :: rs

/-- Models Python's `str.strip()` with no argument (the sources only strip
ASCII whitespace in practice). -/
def pyStrip (s : PyStr) : PyStr :=
  ((s.dropWhile Char.isWhitespace).reverse.dropWhile Char.isWhitespace).reverse

/-- Models `sep.join(parts)` for a single-character separator. -/
def joinSep (sep : Char) : List PyStr → PyStr
  | [] => []
  | [x] => x
  | x :: y :: rest => x ++ sep :: joinSep sep (y :: rest)

/-- Numeric value of a decimal digit character. -/
def digitVal (c : Char) : ℕ := c.toNat - '0'.toNat

/-- Value of a list of decimal digit characters, most significant first. -/
def digitsVal (ds : List Char) : ℕ := ds.foldl (fun a c => 10 * a + digitVal c) 0

/-- Models Python's `float(str)` restricted to the plain decimal forms the
repository actually produces and consumes: optional surrounding whitespace,
optional sign, then `digits`, `digits.digits`, `digits.` or `.digits`
(exponents, `inf` and `nan` are out of scope for these payloads). -/
def parseFloat? (s : PyStr) : Option ℚ :=
  let t := pyStrip s
  let sign : ℚ := if t.head? = some '-' then -1 else 1
  let u := if t.head? = some '-' ∨ t.head? = some '+' then t.tail else t
  match pySplit '.' u with
  | [ip] =>
    if ip ≠ [] ∧ ip.all Char.isDigit then some (sign * digitsVal ip) else none
  | [ip, fp] =>
    if (ip ≠ [] ∨ fp ≠ []) ∧ ip.all Char.isDigit ∧ fp.all Char.isDigit then
      some (sign * ((digitsVal ip : ℚ) + (digitsVal fp : ℚ) / 10 ^ fp.length))
    else none
  | _ => none

/-- Models Python's `int(str)`: optional surrounding whitespace, optional
sign, then decimal digits only. -/
def parseInt? (s : PyStr) : Option ℤ :=
  let t := pyStrip s
  let sign : ℤ := if t.head? = some '-' then -1 else 1
  let u := if t.head? = some '-' ∨ t.head? = some '+' then t.tail else t
  if u ≠ [] ∧ u.all Char.isDigit then some (sign * digitsVal u) else none

/-- Fuel-based digit extraction (structural recursion keeps it
kernel-computable); `fuel` must exceed `n`. -/
def natDigitsAux : ℕ → ℕ → List Char
  | 0, _ => []
  | fuel + 1, n =>
    if n < 10 then [Nat.digitChar n]
    else natDigitsAux fuel (n / 10) ++ [Nat.digitChar (n % 10)]

/-- Decimal digit characters of a natural number, most significant first. -/
def natDigits (n : ℕ) : List Char := natDigitsAux (n + 1) n

/-- Left-pads a digit string with `'0'` up to width `p`. -/
def padZeros (p : ℕ) (s : List Char) : List Char :=
  List.replicate (p - s.length) '0' ++ s

/-- Rounds a rational to the nearest integer, ties to even — the rounding
used by Python's fixed-point float formatting. -/
def roundHalfEven (x : ℚ) : ℤ :=
  let f := ⌊x⌋
  let r := x - f
  if r < 1 / 2 then f
  else if 1 / 2 < r then f + 1
  else if f % 2 = 0 then f else f + 1

/-- The rational actually denoted by formatting `q` with `p` fractional
digits: `q` rounded to the nearest multiple of `10 ^ (-p)`. -/
def rnd (p : ℕ) (q : ℚ) : ℚ := (roundHalfEven (q * 10 ^ p) : ℚ) / 10 ^ p

/-- Models the Python format expression `f"{q:.pf}"` (fixed-point with `p`
fractional digits). `ℚ` has no signed zero, so `-0.0001` at precision 2
renders as `"0.00"` rather than Python's `"-0.00"`; both parse back to the
same value. -/
def formatFixed (p : ℕ) (q : ℚ) : PyStr :=
  let n := roundHalfEven (q * 10 ^ p)
  let sign : PyStr := if n < 0 then ['-'] else []
  let m := n.natAbs
  if p = 0 then sign ++ natDigits m
  else sign ++ natDigits (m / 10 ^ p) ++ '.' :: padZeros p (natDigits (m % 10 ^ p))

end PyStrOps

open PyStrOps

/-! ## geometry_utils.py — shape-string codec -/

/-- Models one iteration of the vertex loop in `parse_shape_rings`
(geometry_utils.py lines 23–35): strip the segment, skip it when blank,
require exactly two comma-separated parts, and require both to parse as
floats; any failure silently drops the vertex. -/
def parseVertex? (seg : PyStr) : Option Coordinate :=
  let pair := pyStrip seg
  if pair = [] then none
  else
    match pySplit ',' pair with
    | [a, b] =>
      match parseFloat? a, parseFloat? b with
      | some lon, some lat => some (lon, lat)
      | _, _ => none
    | _ => none

/-- The vertices collected from one `@`-separated ring segment. -/
def parseRingCoords (raw : PyStr) : List Coordinate :=
  (pySplit ';' raw).filterMap parseVertex?

/-- Models geometry_utils.py lines 38–39: close a non-empty ring whose
first vertex differs from its last by appending a copy of its first. -/
def closeRing (cs : List Coordinate) : List Coordinate :=
  match cs.head?, cs.getLast? with
  | some h, some l => if h = l then cs else cs ++ [h]
  | _, _ => cs

/-- Models `parse_shape_rings` (geometry_utils.py lines 17–41). `none`
models Python `None`; `if not shape` is true for both `None` and `""`. -/
def parse_shape_rings (shape : Option PyStr) : List (List Coordinate) :=
  match shape with
  | none => []
  | some s =>
    if s = [] then []
    else
      (pySplit '@' s).filterMap fun raw =>
        let cs := parseRingCoords raw
        if cs = [] then none else some (closeRing cs)

/-- Models `parse_shape_string` (geometry_utils.py lines 12–14): the first
ring when any exists, otherwise the empty list. -/
def parse_shape_string (shape : Option PyStr) : List Coordinate :=
  (parse_shape_rings shape).headD []

/-- Models `coordinates_to_shape_string` (geometry_utils.py lines 133–144). -/
def coordinates_to_shape_string
    (coords : List Coordinate) (precision : ℕ) (close_ring : Bool) : PyStr :=
  match coords with
  | [] => []
  | c :: rest =>
    let pts := c :: rest
    let points :=
      if pts.getLast? = some c ∧ ¬close_ring then pts.dropLast
      else if close_ring ∧ pts.getLast? ≠ some c then pts ++ [c]
      else pts
    joinSep ';'
      (points.map fun v => formatFixed precision v.1 ++ ',' :: formatFixed precision v.2)

/-- Models `rings_to_shape_string` (geometry_utils.py lines 147–155):
serialize each ring, keep the non-empty texts, join them with `@`. -/
def rings_to_shape_string
    (rings : List (List Coordinate)) (precision : ℕ) (close_rings : Bool) : PyStr :=
  joinSep '@'
    ((rings.map fun r => coordinates_to_shape_string r precision close_rings).filter
      (· ≠ []))

/-! ## geometry_utils.py — bounds and view normalizer -/

/-- Minimum of a list of rationals (`min(xs)` on a non-empty list). -/
def listMin : List ℚ → Option ℚ
  | [] => none
  | x :: xs => some (xs.foldl min x)

/-- Maximum of a list of rationals (`max(xs)` on a non-empty list). -/
def listMax : List ℚ → Option ℚ
  | [] => none
  | x :: xs => some (xs.foldl max x)

/-- Models `compute_bounds` (geometry_utils.py lines 60–66):
`(min_x, min_y, max_x, max_y)` of a non-empty point list, `None` otherwise. -/
def compute_bounds (coords : List Coordinate) : Option (ℚ × ℚ × ℚ × ℚ) :=
  match listMin (coords.map Prod.fst), listMin (coords.map Prod.snd),
      listMax (coords.map Prod.fst), listMax (coords.map Prod.snd) with
  | some a, some b, some c, some d => some (a, b, c, d)
  | _, _, _, _ => none

/-- Models `normalize_to_view` (geometry_utils.py lines 69–84). The zero-span
guard `max(span, 1e-6)` is the exact rational `1 / 1000000`. -/
def normalize_to_view
    (coords : List Coordinate) (width height : ℚ) (padding : ℚ) : List Coordinate :=
  match compute_bounds coords with
  | none => []
  | some (min_x, min_y, max_x, max_y) =>
    let span_x := max (max_x - min_x) (1 / 1000000)
    let span_y := max (max_y - min_y) (1 / 1000000)
    let scale_x := (width - 2 * padding) / span_x
    let scale_y := (height - 2 * padding) / span_y
    let scale := min scale_x scale_y
    coords.map fun c =>
      (padding + (c.1 - min_x) * scale, height - (padding + (c.2 - min_y) * scale))

/-! ## geometry_utils.py — GCJ-02 → WGS-84 transform -/

/-- The transcendental functions used by the transform (`math.sin`,
`math.cos`, `math.sqrt`), abstracted so the embedding stays executable;
every theorem below is proved for all choices of `TrigOps`. -/
structure TrigOps where
  sin : ℚ → ℚ
  cos : ℚ → ℚ
  sqrt : ℚ → ℚ

/-- A concrete instantiation used by witnesses. -/
def zeroOps : TrigOps := ⟨fun _ => 0, fun _ => 0, fun _ => 0⟩

/-- Semi-major axis constant `A = 6378245.0` (geometry_utils.py line 88). -/
def aAxis : ℚ := 6378245

/-- Eccentricity-squared constant `EE` (geometry_utils.py line 89). -/
def eccSq : ℚ := 0.00669342162296594323

/-- Models `math.pi` as the value Python prints for it; no claim depends on
its exact rational value. -/
def piConst : ℚ := 3.141592653589793

/-- Models `_transform_lat` (geometry_utils.py lines 93–98). -/
def _transform_lat (ops : TrigOps) (x y : ℚ) : ℚ :=
  let r0 := -100 + 2 * x + 3 * y + 0.2 * y * y + 0.1 * x * y + 0.2 * ops.sqrt |x|
  let r1 := r0 + (20 * ops.sin (6 * x * piConst) + 20 * ops.sin (2 * x * piConst)) * 2 / 3
  let r2 := r1 + (20 * ops.sin (y * piConst) + 40 * ops.sin (y / 3 * piConst)) * 2 / 3
  r2 + (160 * ops.sin (y / 12 * piConst) + 320 * ops.sin (y * piConst / 30)) * 2 / 3

/-- Models `_transform_lon` (geometry_utils.py lines 101–106). -/
def _transform_lon (ops : TrigOps) (x y : ℚ) : ℚ :=
  let r0 := 300 + x + 2 * y + 0.1 * x * x + 0.1 * x * y + 0.1 * ops.sqrt |x|
  let r1 := r0 + (20 * ops.sin (6 * x * piConst) + 20 * ops.sin (2 * x * piConst)) * 2 / 3
  let r2 := r1 + (20 * ops.sin (x * piConst) + 40 * ops.sin (x / 3 * piConst)) * 2 / 3
  r2 + (150 * ops.sin (x / 12 * piConst) + 300 * ops.sin (x / 30 * piConst)) * 2 / 3

/-- Models `_out_of_china` (geometry_utils.py lines 109–110). -/
def _out_of_china (lon lat : ℚ) : Bool :=
  !(decide (72.004 ≤ lon) && decide (lon ≤ 137.8347) &&
    decide (0.8293 ≤ lat) && decide (lat ≤ 55.8271))

/-- The fully scaled latitude correction term: `d_lat` after line 122 of
geometry_utils.py. -/
def delta_lat (ops : TrigOps) (lon lat : ℚ) : ℚ :=
  let d_lat := _transform_lat ops (lon - 105) (lat - 35)
  let rad_lat := lat / 180 * piConst
  let magic := 1 - eccSq * ops.sin rad_lat * ops.sin rad_lat
  let sqrt_magic := ops.sqrt magic
  d_lat * 180 / (aAxis * (1 - eccSq) / (magic * sqrt_magic) * piConst)

/-- The fully scaled longitude correction term: `d_lon` after line 123 of
geometry_utils.py. -/
def delta_lon (ops : TrigOps) (lon lat : ℚ) : ℚ :=
  let d_lon := _transform_lon ops (lon - 105) (lat - 35)
  let rad_lat := lat / 180 * piConst
  let magic := 1 - eccSq * ops.sin rad_lat * ops.sin rad_lat
  let sqrt_magic := ops.sqrt magic
  d_lon * 180 / (aAxis / sqrt_magic * ops.cos rad_lat * piConst)

/-- The shifted latitude `mg_lat = lat + d_lat` (geometry_utils.py line 124). -/
def mg_lat (ops : TrigOps) (lon lat : ℚ) : ℚ := lat + delta_lat ops lon lat

/-- The shifted longitude `mg_lon = lon + d_lon` (geometry_utils.py line 125). -/
def mg_lon (ops : TrigOps) (lon lat : ℚ) : ℚ := lon + delta_lon ops lon lat

/-- Models `gcj02_to_wgs84` (geometry_utils.py lines 113–126): identity
outside the mainland envelope, otherwise the original point minus the
shift applied a second time (line 126). -/
def gcj02_to_wgs84 (ops : TrigOps) (lon lat : ℚ) : Coordinate :=
  if _out_of_china lon lat then (lon, lat)
  else (lon - (mg_lon ops lon lat - lon), lat - (mg_lat ops lon lat - lat))

/-- Models the spec's words for 4.2 read as a SINGLE subtraction of the
shift: `(lon - dLon', lat - dLat')` inside the envelope, identity outside.
Named for comparison with `gcj02_to_wgs84`. -/
def gcj02_to_wgs84_single (ops : TrigOps) (lon lat : ℚ) : Coordinate :=
  if _out_of_china lon lat then (lon, lat)
  else (lon - delta_lon ops lon lat, lat - delta_lat ops lon lat)

/-- Models `convert_gcj02_polygon` (geometry_utils.py lines 129–130). -/
def convert_gcj02_polygon (ops : TrigOps) (coords : List Coordinate) : List Coordinate :=
  coords.map fun c => gcj02_to_wgs84 ops c.1 c.2

/-! ## geometry_utils.py — GeoJSON interchange structures -/

/-- A dynamically-typed GeoJSON coordinate value: either a number or a
nested array, mirroring the JSON lists the Python code iterates over. -/
inductive CoordTree where
  | num (q : ℚ)
  | arr (xs : List CoordTree)

/-- The Python-level errors raised by the embedded code. -/
inductive PyErr where
  | valueError (msg : PyStr)
  | typeError
deriving DecidableEq

/-- String properties attached to an exported feature
(`_place_properties` in exporters.py lines 29–36). -/
structure FeatureProps where
  name : PyStr
  address : PyStr
  telephone : PyStr
  poiid : PyStr
  tag : PyStr
deriving DecidableEq

/-- The `geometry` sub-object of a GeoJSON feature dict: its `"type"` entry
and its `"coordinates"` entry, either possibly missing. -/
structure GeomObj where
  gtype : Option PyStr
  coordinates : Option CoordTree

/-- A GeoJSON feature dict as consumed/produced by geometry_utils.py:
a `properties` entry and a `geometry` entry, either possibly missing. -/
structure Feature where
  properties : Option FeatureProps
  geometry : Option GeomObj

/-- The GeoJSON encoding of a position `[lon, lat]`. -/
def posTree (c : Coordinate) : CoordTree := .arr [.num c.1, .num c.2]

/-- The GeoJSON encoding of a ring: an array of positions. -/
def ringTree (r : List Coordinate) : CoordTree := .arr (r.map posTree)

/-- The GeoJSON encoding of a `Polygon`'s coordinates: an array of rings. -/
def ringsTree (rs : List (List Coordinate)) : CoordTree := .arr (rs.map ringTree)

/-- The GeoJSON encoding of a `MultiPolygon`'s coordinates: an array of
per-polygon ring arrays. -/
def polysTree (ps : List (List (List Coordinate))) : CoordTree := .arr (ps.map ringsTree)

/-- Models `coordinates_to_feature` (geometry_utils.py lines 44–53): a
`Polygon` feature holding the single ring `[list(coords)]`. -/
def coordinates_to_feature (coords : List Coordinate) (props : FeatureProps) : Feature :=
  ⟨some props, some ⟨some "Polygon".toList, some (ringsTree [coords])⟩⟩

/-- Models Python iteration over a JSON value: a list iterates, a bare
number raises `TypeError`. -/
def asList : CoordTree → Except PyErr (List CoordTree)
  | .arr xs => .ok xs
  | .num _ => .error .typeError

/-- Models `(float(lon), float(lat)) for lon, lat in ring` applied to one
position: only a two-element array of numbers succeeds (Python's distinct
unpack/conversion errors are collapsed into `typeError`; no claim takes
that path). -/
def asPair : CoordTree → Except PyErr Coordinate
  | .arr [.num a, .num b] => .ok (a, b)
  | _ => .error .typeError

/-- Error-propagating left-to-right map, mirroring how a Python list
comprehension raises at the first bad element. -/
def mapExc (f : CoordTree → Except PyErr α) : List CoordTree → Except PyErr (List α)
  | [] => .ok []
  | x :: xs => do
    let a ← f x
    let rest ← mapExc f xs
    pure (a :: rest)

/-- Extracts one ring (list of coordinate pairs) from its GeoJSON encoding. -/
def ringFromTree (t : CoordTree) : Except PyErr (List Coordinate) := do
  let posList ← asList t
  mapExc asPair posList

/-- The message of the `ValueError` raised for unsupported geometry types
(geometry_utils.py line 170). -/
def unsupportedGeometryMsg : PyStr :=
  "Only Polygon or MultiPolygon geometries can be converted to shape strings".toList

/-- Models `feature_to_shape_string` (geometry_utils.py lines 158–171):
`Polygon` rings are used directly, `MultiPolygon` ring lists are flattened
one level, every other geometry type raises `ValueError`. -/
def feature_to_shape_string
    (f : Feature) (precision : ℕ) (close_rings : Bool) : Except PyErr PyStr :=
  let geometry := f.geometry.getD ⟨none, none⟩
  let gtype := geometry.gtype
  let coords := geometry.coordinates.getD (.arr [])
  if gtype = some "Polygon".toList then do
    let ringTrees ← asList coords
    let rings ← mapExc ringFromTree ringTrees
    pure (rings_to_shape_string rings precision close_rings)
  else if gtype = some "MultiPolygon".toList then do
    let polyTrees ← asList coords
    let polyRings ← mapExc (fun poly => do
      let ts ← asList poly
      mapExc ringFromTree ts) polyTrees
    pure (rings_to_shape_string polyRings.flatten precision close_rings)
  else .error (.valueError unsupportedGeometryMsg)

/-! ## models.py -/

/-- The raw `mining_shape` payload fragment (`data.spec.mining_shape`),
with the three entries gaode_client.py reads from it. -/
structure MiningShapeRaw where
  shape : Option PyStr
  center : Option PyStr
  level : Option PyStr
deriving DecidableEq

/-- An empty `mining_shape` dict (`{}`). -/
def emptyMiningShapeRaw : MiningShapeRaw := ⟨none, none, none⟩

/-- Models the `MiningShape` dataclass (models.py lines 9–14). -/
structure MiningShape where
  coordinates : List Coordinate
  level : ℤ
  center : Coordinate
  raw : MiningShapeRaw
deriving DecidableEq

/-- The `data.base` payload sub-object, with the entries
gaode_client.py reads from it. -/
structure BaseObj where
  poiid : Option PyStr
  name : Option PyStr
  address : Option PyStr
  telephone : Option PyStr
  city_name : Option PyStr
  tag : Option PyStr
  new_keytype : Option PyStr
  classify : Option PyStr
  title : Option PyStr
  business : Option PyStr
deriving DecidableEq

/-- An empty `base` dict (`{}`). -/
def emptyBase : BaseObj := ⟨none, none, none, none, none, none, none, none, none, none⟩

/-- The `metadata` dict built by `build_place_from_payload`
(gaode_client.py lines 48–52). -/
structure Metadata where
  classify : Option PyStr
  title : Option PyStr
  business : Option PyStr
deriving DecidableEq

/-- The `data.spec` payload sub-object. -/
structure SpecObj where
  mining_shape : Option MiningShapeRaw
deriving DecidableEq

/-- An empty `spec` dict (`{}`). -/
def emptySpec : SpecObj := ⟨none⟩

/-- The `data` payload sub-object. -/
structure DataObj where
  base : Option BaseObj
  spec : Option SpecObj
deriving DecidableEq

/-- An empty `data` dict (`{}`). -/
def emptyData : DataObj := ⟨none, none⟩

/-- A captured detail payload: its `status` entry and its `data` sub-object. -/
structure Payload where
  status : Option PyStr
  data : Option DataObj
deriving DecidableEq

/-- Models the `PlaceDetail` dataclass (models.py lines 17–32). All of
`poiid, name, classify, longitude, latitude, address, telephone, city_name,
city_adcode, code, tag, mining_shape, metadata` are required constructor
arguments; only `raw` has a default. -/
structure PlaceDetail where
  poiid : PyStr
  name : PyStr
  classify : PyStr
  longitude : ℚ
  latitude : ℚ
  address : PyStr
  telephone : PyStr
  city_name : PyStr
  city_adcode : PyStr
  code : PyStr
  tag : PyStr
  mining_shape : Option MiningShape
  metadata : Metadata
  raw : Option DataObj := none
deriving DecidableEq

/-- Models the `PlaceDetail.has_geometry` property (models.py lines 34–36):
`bool(self.mining_shape and self.mining_shape.coordinates)`. -/
def PlaceDetail.has_geometry (p : PlaceDetail) : Bool :=
  match p.mining_shape with
  | none => false
  | some ms => !ms.coordinates.isEmpty

/-! ## gaode_client.py -/

/-- Models `str(payload.get("status"))`: Python renders `None` as the
string `"None"`. -/
def statusStr (p : Payload) : PyStr :=
  match p.status with
  | none => "None".toList
  | some s => s

/-- Models the Python string expression `a or b`: `b` when `a` is missing
or empty (falsy), `a` otherwise.  This is the line-41 idiom
`base.get("poiid") or poiid` of gaode_client.py. -/
def pyOr (o : Option PyStr) (fallback : PyStr) : PyStr :=
  match o with
  | none => fallback
  | some s => if s = [] then fallback else s

/-- Models `data.get("base") or {}` after `data = payload.get("data") or {}`. -/
def baseOf (payload : Payload) : BaseObj :=
  ((payload.data.getD emptyData).base).getD emptyBase

/-- Models `(spec.get("mining_shape") or {}) if spec else {}`: the raw
mining-shape fragment, empty whenever any level of nesting is missing. -/
def miningShapeRawOf (payload : Payload) : MiningShapeRaw :=
  (((payload.data.getD emptyData).spec).getD emptySpec).mining_shape.getD emptyMiningShapeRaw

/-- Models gaode_client.py lines 23–28: `center.split(",")` must yield
exactly two parts and both must parse as floats; an empty `center` string
is falsy and skips the block; any `ValueError` is swallowed. -/
def parseCenter? (ctr : PyStr) : Option Coordinate :=
  if ctr = [] then none
  else
    match pySplit ',' ctr with
    | [a, b] =>
      match parseFloat? a, parseFloat? b with
      | some lon, some lat => some (lon, lat)
      | _, _ => none
    | _ => none

set_option linter.unusedVariables false in
/-- Models `GaodeClient.build_place_from_payload` (gaode_client.py lines
10–54).  A non-`"1"` status raises
`ValueError(f"Gaode response returned status={...}")`.  Otherwise the
function parses and corrects the geometry exactly as the source does — and
then the `PlaceDetail(...)` constructor call on lines 40–54 raises
`TypeError`, because the `PlaceDetail` dataclass of models.py also
requires `classify`, `longitude`, `latitude`, `city_adcode` and `code`,
none of which this call site passes. -/
def build_place_from_payload
    (ops : TrigOps) (payload : Payload) (poiid : PyStr) : Except PyErr PlaceDetail :=
  if statusStr payload ≠ "1".toList then
    .error (.valueError ("Gaode response returned status=".toList ++ statusStr payload))
  else
    let mining_shape_raw := miningShapeRawOf payload
    let gcj_coords := parse_shape_string mining_shape_raw.shape
    let coordinates := convert_gcj02_polygon ops gcj_coords
    let _mining_shape : Option MiningShape :=
      if coordinates = [] then none
      else
        let center_default := coordinates.headD (0, 0)
        let center_tuple :=
          match mining_shape_raw.center with
          | none => center_default
          | some ctr =>
            match parseCenter? ctr with
            | some c => gcj02_to_wgs84 ops c.1 c.2
            | none => center_default
        let level : ℤ :=
          match mining_shape_raw.level with
          | none => 0
          | some lv => (parseInt? lv).getD 0
        some ⟨coordinates, level, center_tuple, mining_shape_raw⟩
    -- The dataclass call `PlaceDetail(poiid=..., name=..., address=...,
    -- telephone=..., city_name=..., tag=..., mining_shape=..., metadata=...,
    -- raw=...)` omits the required fields `classify`, `longitude`,
    -- `latitude`, `city_adcode` and `code`, so it raises TypeError before
    -- any PlaceDetail value exists.
    .error .typeError

/-! ## exporters.py -/

/-- The export-time failure (`ExportError` in exporters.py). -/
inductive ExportErr where
  | exportError (msg : PyStr)
deriving DecidableEq

/-- Models `_place_properties` (exporters.py lines 29–36). -/
def _place_properties (place : PlaceDetail) : FeatureProps :=
  ⟨place.name, place.address, place.telephone, place.poiid, place.tag⟩

/-- The coordinates used by the exporters: `place.mining_shape.coordinates`
(only ever read after a `has_geometry` check). -/
def placeCoords (place : PlaceDetail) : List Coordinate :=
  (place.mining_shape.map MiningShape.coordinates).getD []

/-- The error message for a batch in which no record has geometry
(exporters.py lines 62 and 100). -/
def nothingToExportMsg : PyStr := "选定的POI均缺少可用多边形，无法导出".toList

/-- Models `GeoJSONExporter.export_batch` (exporters.py lines 50–66):
records without geometry are recorded in `skipped` and processing
continues; if no feature was built the batch fails; otherwise the written
path and the skipped identifiers are returned.  The file write itself is
I/O and outside the embedding. -/
def geojson_export_batch
    (places : List PlaceDetail) (file_path : PyStr) :
    Except ExportErr (PyStr × List PyStr) :=
  let skipped := (places.filter fun p => !p.has_geometry).map PlaceDetail.poiid
  let features :=
    (places.filter fun p => p.has_geometry).map fun p =>
      coordinates_to_feature (placeCoords p) (_place_properties p)
  if features.isEmpty then .error (.exportError nothingToExportMsg)
  else .ok (file_path, skipped)

/-- Models `shp_path.lower().endswith(".shp")` followed by the conditional
`f"{shp_path}.shp"` (exporters.py lines 85–86). -/
def fixShpPath (shp_path : PyStr) : PyStr :=
  if List.isSuffixOf ".shp".toList (shp_path.map Char.toLower) then shp_path
  else shp_path ++ ".shp".toList

/-- Models `ShapefileExporter.export_batch` (exporters.py lines 84–105):
same skip/fail partition as the GeoJSON batch export, with the `.shp`
suffix normalisation applied to the returned path. -/
def shapefile_export_batch
    (places : List PlaceDetail) (shp_path : PyStr) :
    Except ExportErr (PyStr × List PyStr) :=
  let path := fixShpPath shp_path
  let skipped := (places.filter fun p => !p.has_geometry).map PlaceDetail.poiid
  let count := (places.filter fun p => p.has_geometry).length
  if count = 0 then .error (.exportError nothingToExportMsg)
  else .ok (path, skipped)

/-! ## Claim theorems -/

/-- C1: for every point (lon, lat) outside the bounding envelope
longitude ∈ [72.004, 137.8347], latitude ∈ [0.8293, 55.8271], the
correction function `gcj02_to_wgs84` returns the input unchanged; in
particular `gcj02_to_wgs84 0 0 = (0, 0)`. -/
theorem gcj02_identity_outside_envelope :
    (∀ (ops : TrigOps) (lon lat : ℚ),
      ¬((72.004 : ℚ) ≤ lon ∧ lon ≤ 137.8347 ∧ (0.8293 : ℚ) ≤ lat ∧ lat ≤ 55.8271) →
      gcj02_to_wgs84 ops lon lat = (lon, lat)) ∧
    ∀ ops : TrigOps, gcj02_to_wgs84 ops 0 0 = (0, 0) := by
  constructor
  · intro ops lon lat h
    have hout : _out_of_china lon lat = true := by
      simp only [_out_of_china, Bool.not_eq_true', Bool.and_eq_false_iff,
        decide_eq_false_iff_not]
      tauto
    simp [gcj02_to_wgs84, hout]
  · intro ops
    have hout : _out_of_china 0 0 = true := by with_unfolding_all decide
    simp [gcj02_to_wgs84, hout]

/-- Witness for C1: the point (200, 0) lies outside the envelope and, with
a concrete `TrigOps`, is returned unchanged; and (0, 0) maps to (0, 0). -/
theorem gcj02_identity_outside_envelope_witness :
    (¬((72.004 : ℚ) ≤ 200 ∧ (200 : ℚ) ≤ 137.8347 ∧ (0.8293 : ℚ) ≤ 0 ∧ (0 : ℚ) ≤ 55.8271)) ∧
    gcj02_to_wgs84 zeroOps 200 0 = (200, 0) ∧
    gcj02_to_wgs84 zeroOps 0 0 = (0, 0) :=
  ⟨by with_unfolding_all decide,
   gcj02_identity_outside_envelope.1 zeroOps 200 0 (by with_unfolding_all decide),
   gcj02_identity_outside_envelope.2 zeroOps⟩

/-- C2 (amended): for every point inside the mainland envelope,
`gcj02_to_wgs84` forms the shifted point `(lon + dLon', lat + dLat')` and
returns the original point minus the shift applied a second time,
`(lon - (mg_lon - lon), lat - (mg_lat - lat))`; in exact arithmetic this
double-subtraction form coincides with the single subtraction
`(lon - dLon', lat - dLat')`. -/
theorem gcj02_double_subtraction_form :
    ∀ (ops : TrigOps) (lon lat : ℚ), _out_of_china lon lat = false →
      gcj02_to_wgs84 ops lon lat
          = (lon - (mg_lon ops lon lat - lon), lat - (mg_lat ops lon lat - lat)) ∧
      mg_lon ops lon lat = lon + delta_lon ops lon lat ∧
      mg_lat ops lon lat = lat + delta_lat ops lon lat ∧
      gcj02_to_wgs84 ops lon lat
          = (lon - delta_lon ops lon lat, lat - delta_lat ops lon lat) := by
  intro ops lon lat h
  refine ⟨by simp [gcj02_to_wgs84, h], rfl, rfl, ?_⟩
  simp only [gcj02_to_wgs84, h, Bool.false_eq_true, if_false, mg_lon, mg_lat,
    Prod.mk.injEq]
  constructor <;> ring

/-- Witness for C2: the Beijing-area point (116.4, 39.9) lies inside the
envelope; with a concrete `TrigOps` the theorem applies to it. -/
theorem gcj02_double_subtraction_form_witness :
    _out_of_china 116.4 39.9 = false ∧
    (gcj02_to_wgs84 zeroOps 116.4 39.9
        = (116.4 - (mg_lon zeroOps 116.4 39.9 - 116.4),
           39.9 - (mg_lat zeroOps 116.4 39.9 - 39.9)) ∧
      mg_lon zeroOps 116.4 39.9 = 116.4 + delta_lon zeroOps 116.4 39.9 ∧
      mg_lat zeroOps 116.4 39.9 = 39.9 + delta_lat zeroOps 116.4 39.9 ∧
      gcj02_to_wgs84 zeroOps 116.4 39.9
        = (116.4 - delta_lon zeroOps 116.4 39.9,
           39.9 - delta_lat zeroOps 116.4 39.9)) :=
  ⟨by with_unfolding_all decide,
   gcj02_double_subtraction_form zeroOps 116.4 39.9 (by with_unfolding_all decide)⟩

/-- C2 counterexample to the claimed inequivalence: in the exact-arithmetic
embedding the double-subtraction form IS the single subtraction of the
shift — the two functions are equal. -/
theorem gcj02_double_eq_single : gcj02_to_wgs84 = gcj02_to_wgs84_single := by
  funext ops lon lat
  unfold gcj02_to_wgs84 gcj02_to_wgs84_single mg_lon mg_lat
  split
  · rfl
  · simp only [Prod.mk.injEq]
    constructor <;> ring

/-- C8: `parse_shape_rings` on `None`, the empty string, and a
whitespace-only string yields the empty ring list, and `parse_shape_string`
on the same inputs yields the empty coordinate list. -/
theorem parse_blank_inputs_empty :
    parse_shape_rings none = [] ∧
    parse_shape_rings (some "".toList) = [] ∧
    parse_shape_rings (some "   ".toList) = [] ∧
    parse_shape_string none = [] ∧
    parse_shape_string (some "".toList) = [] ∧
    parse_shape_string (some "   ".toList) = [] := by
  refine ⟨rfl, by decide, by decide, rfl, by decide, by decide⟩

/-- A closed ring stays non-empty and keeps first = last; an open ring is
closed by appending its first vertex. -/
theorem closeRing_spec (cs : List Coordinate) (h : cs ≠ []) :
    closeRing cs ≠ [] ∧ (closeRing cs).head? = (closeRing cs).getLast? := by
  obtain ⟨c, rest, rfl⟩ := List.exists_cons_of_ne_nil h
  cases hl : (c :: rest).getLast? with
  | none => simp at hl
  | some l =>
    have hcr : closeRing (c :: rest) = if c = l then c :: rest else (c :: rest) ++ [c] := by
      simp only [closeRing, List.head?_cons, hl]
    by_cases hcl : c = l
    · rw [hcr, if_pos hcl]
      exact ⟨by simp, by rw [List.head?_cons, hl, hcl]⟩
    · rw [hcr, if_neg hcl]
      refine ⟨by simp, ?_⟩
      rw [List.getLast?_concat]
      rfl

/-- Rings produced by `parse_shape_rings` arise from `closeRing` applied to
a non-empty vertex list. -/
theorem mem_parse_shape_rings {s : Option PyStr} {r : List Coordinate}
    (h : r ∈ parse_shape_rings s) :
    ∃ cs : List Coordinate, cs ≠ [] ∧ r = closeRing cs := by
  match s with
  | none => simp [parse_shape_rings] at h
  | some str =>
    simp only [parse_shape_rings] at h
    by_cases hstr : str = []
    · simp [hstr] at h
    · rw [if_neg hstr] at h
      obtain ⟨raw, -, hraw⟩ := List.mem_filterMap.1 h
      by_cases hcs : parseRingCoords raw = []
      · simp [hcs] at hraw
      · rw [if_neg hcs] at hraw
        exact ⟨parseRingCoords raw, hcs, (Option.some_inj.1 hraw).symm⟩

/-- C10: every ring returned by `parse_shape_rings` is non-empty with its
first coordinate equal to its last; in particular a segment with exactly
one valid vertex is kept as a one-point ring with no duplicate appended. -/
theorem parse_rings_nonempty_closed :
    (∀ (s : Option PyStr) (r : List Coordinate), r ∈ parse_shape_rings s →
      r ≠ [] ∧ r.head? = r.getLast?) ∧
    parse_shape_rings (some "1,2".toList) = [[(1, 2)]] := by
  constructor
  · intro s r hr
    obtain ⟨cs, hcs, rfl⟩ := mem_parse_shape_rings hr
    exact closeRing_spec cs hcs
  · with_unfolding_all decide

/-- Witness for C10: the single-vertex shape string `"1,2"` produces the
one-point ring `[(1, 2)]`, which is non-empty and trivially closed. -/
theorem parse_rings_nonempty_closed_witness :
    [((1 : ℚ), (2 : ℚ))] ∈ parse_shape_rings (some "1,2".toList) ∧
    ([((1 : ℚ), (2 : ℚ))] ≠ [] ∧
      [((1 : ℚ), (2 : ℚ))].head? = [((1 : ℚ), (2 : ℚ))].getLast?) :=
  ⟨by with_unfolding_all decide,
   parse_rings_nonempty_closed.1 (some "1,2".toList) [((1 : ℚ), (2 : ℚ))]
     (by with_unfolding_all decide)⟩

/-- A payload whose status is not the success marker `"1"`. -/
def payloadBadStatus : Payload := ⟨some "0".toList, none⟩

/-- A success payload whose `mining_shape` sub-object is present but empty. -/
def payloadEmptyMiningShape : Payload :=
  ⟨some "1".toList, some ⟨none, some ⟨some emptyMiningShapeRaw⟩⟩⟩

/-- C4: a non-success status raises the upstream-failure `ValueError`; but
on a success payload with a present-but-empty `mining_shape` the code does
NOT return a `PlaceDetail` with `has_geometry = false` — the
`PlaceDetail(...)` call raises `TypeError` because the models.py dataclass
requires `classify`, `longitude`, `latitude`, `city_adcode` and `code`,
which gaode_client.py never passes. -/
theorem build_place_from_payload_bug :
    build_place_from_payload zeroOps payloadBadStatus "X".toList
        = .error (.valueError "Gaode response returned status=0".toList) ∧
    build_place_from_payload zeroOps payloadEmptyMiningShape "X".toList
        = .error .typeError ∧
    ∀ pd : PlaceDetail,
      build_place_from_payload zeroOps payloadEmptyMiningShape "X".toList ≠ .ok pd := by
  refine ⟨by with_unfolding_all rfl, by with_unfolding_all rfl, ?_⟩
  intro pd h
  rw [show build_place_from_payload zeroOps payloadEmptyMiningShape "X".toList
      = .error .typeError from by with_unfolding_all rfl] at h
  exact Except.noConfusion h

/-- A success payload carrying its own identifier `data.base.poiid = "B001"`. -/
def payloadWithPoiid : Payload :=
  ⟨some "1".toList,
   some ⟨some { emptyBase with poiid := some "B001".toList },
         some ⟨some emptyMiningShapeRaw⟩⟩⟩

/-- C9: the line-41 expression `base.get("poiid") or poiid` does prefer the
payload identifier over the fallback — but no `PlaceDetail` is ever
assembled: the constructor call raises `TypeError` (missing required
dataclass fields), so the assembled record's `poiid` never exists. -/
theorem build_place_poiid_precedence_bug :
    pyOr (baseOf payloadWithPoiid).poiid "FALL".toList = "B001".toList ∧
    build_place_from_payload zeroOps payloadWithPoiid "FALL".toList
        = .error .typeError ∧
    ∀ pd : PlaceDetail,
      build_place_from_payload zeroOps payloadWithPoiid "FALL".toList ≠ .ok pd := by
  refine ⟨by with_unfolding_all decide, by with_unfolding_all rfl, ?_⟩
  intro pd h
  rw [show build_place_from_payload zeroOps payloadWithPoiid "FALL".toList
      = .error .typeError from by with_unfolding_all rfl] at h
  exact Except.noConfusion h

/-- The two skip predicates of exporters.py agree: a record is skipped
exactly when `has_geometry` is false. -/
theorem not_has_geometry_eq (p : PlaceDetail) :
    (!p.has_geometry) = decide (p.has_geometry = false) := by
  cases h : p.has_geometry <;> simp [h]

/-- C5: both batch exporters return the output path together with the
poiids of exactly the records lacking geometry, and raise the
"nothing to export" error iff every record in the batch lacks geometry. -/
theorem export_batch_partition :
    ∀ (places : List PlaceDetail) (path : PyStr),
      (geojson_export_batch places path = .error (.exportError nothingToExportMsg)
          ↔ ∀ p ∈ places, p.has_geometry = false) ∧
      ((∃ p ∈ places, p.has_geometry = true) →
        geojson_export_batch places path
          = .ok (path,
              (places.filter fun p => !p.has_geometry).map PlaceDetail.poiid)) ∧
      (shapefile_export_batch places path = .error (.exportError nothingToExportMsg)
          ↔ ∀ p ∈ places, p.has_geometry = false) ∧
      ((∃ p ∈ places, p.has_geometry = true) →
        shapefile_export_batch places path
          = .ok (fixShpPath path,
              (places.filter fun p => !p.has_geometry).map PlaceDetail.poiid)) := by
  intro places path
  have hfilter : ((places.filter fun p => p.has_geometry) = []
      ↔ ∀ p ∈ places, p.has_geometry = false) := by
    rw [List.filter_eq_nil_iff]
    constructor
    · intro h p hp
      have := h p hp
      simpa using this
    · intro h p hp
      simp [h p hp]
  have hne : (∃ p ∈ places, p.has_geometry = true) →
      (places.filter fun p => p.has_geometry) ≠ [] := by
    rintro ⟨p, hp, hgp⟩ hnil
    rw [List.filter_eq_nil_iff] at hnil
    exact hnil p hp (by simp [hgp])
  refine ⟨?_, ?_, ?_, ?_⟩
  · unfold geojson_export_batch
    by_cases hempty : (places.filter fun p => p.has_geometry) = []
    · simp only [hempty, List.map_nil, List.isEmpty_nil, if_true]
      exact iff_of_true trivial (hfilter.1 hempty)
    · have : ((places.filter fun p => p.has_geometry).map fun p =>
          coordinates_to_feature (placeCoords p) (_place_properties p)).isEmpty = false := by
        rw [List.isEmpty_eq_false_iff_exists_mem]
        obtain ⟨q, hq⟩ := List.exists_mem_of_ne_nil _ hempty
        exact ⟨_, List.mem_map_of_mem _ hq⟩
      simp only [this, Bool.false_eq_true, if_false]
      constructor
      · intro h
        exact absurd h (by simp)
      · intro h
        exact absurd (hfilter.2 h) hempty
  · intro hex
    have hne' := hne hex
    unfold geojson_export_batch
    have : ((places.filter fun p => p.has_geometry).map fun p =>
        coordinates_to_feature (placeCoords p) (_place_properties p)).isEmpty = false := by
      rw [List.isEmpty_eq_false_iff_exists_mem]
      obtain ⟨q, hq⟩ := List.exists_mem_of_ne_nil _ hne'
      exact ⟨_, List.mem_map_of_mem _ hq⟩
    simp only [this, Bool.false_eq_true, if_false]
  · unfold shapefile_export_batch
    by_cases hempty : (places.filter fun p => p.has_geometry) = []
    · simp only [hempty, List.length_nil]
      rw [if_pos trivial]
      exact iff_of_true rfl (hfilter.1 hempty)
    · have hlen : (places.filter fun p => p.has_geometry).length ≠ 0 := by
        simpa [List.length_eq_zero] using hempty
      rw [if_neg hlen]
      constructor
      · intro h
        exact absurd h (by simp)
      · intro h
        exact absurd (hfilter.2 h) hempty
  · intro hex
    have hne' := hne hex
    unfold shapefile_export_batch
    have hlen : (places.filter fun p => p.has_geometry).length ≠ 0 := by
      simpa [List.length_eq_zero] using hne'
    rw [if_neg hlen]

/-- A record with a three-vertex polygon (spec test fixture
`placeWithGeometry`). -/
def placeWithGeometry : PlaceDetail where
  poiid := "PG1".toList
  name := []
  classify := []
  longitude := 0
  latitude := 0
  address := []
  telephone := []
  city_name := []
  city_adcode := []
  code := []
  tag := []
  mining_shape := some ⟨[(0, 0), (1, 0), (0, 0)], 0, (0, 0), emptyMiningShapeRaw⟩
  metadata := ⟨none, none, none⟩

/-- A record with no geometry at all (spec test fixture
`placeWithoutGeometry`). -/
def placeWithoutGeometry : PlaceDetail where
  poiid := "PN1".toList
  name := []
  classify := []
  longitude := 0
  latitude := 0
  address := []
  telephone := []
  city_name := []
  city_adcode := []
  code := []
  tag := []
  mining_shape := none
  metadata := ⟨none, none, none⟩

/-- Witness for C5: over `[placeWithGeometry, placeWithoutGeometry]` the
GeoJSON batch export returns the path and skips exactly the geometryless
record, and over `[placeWithoutGeometry]` alone it raises the
"nothing to export" error. -/
theorem export_batch_partition_witness :
    ((∃ p ∈ [placeWithGeometry, placeWithoutGeometry], p.has_geometry = true) ∧
      geojson_export_batch [placeWithGeometry, placeWithoutGeometry] "out.geojson".toList
        = .ok ("out.geojson".toList,
            (([placeWithGeometry, placeWithoutGeometry].filter
                fun p => !p.has_geometry).map PlaceDetail.poiid))) ∧
    ((∀ p ∈ [placeWithoutGeometry], p.has_geometry = false) ∧
      geojson_export_batch [placeWithoutGeometry] "out.geojson".toList
        = .error (.exportError nothingToExportMsg)) :=
  ⟨⟨by with_unfolding_all decide,
    (export_batch_partition [placeWithGeometry, placeWithoutGeometry]
      "out.geojson".toList).2.1 (by with_unfolding_all decide)⟩,
   ⟨by with_unfolding_all decide,
    (export_batch_partition [placeWithoutGeometry] "out.geojson".toList).1.mpr
      (by with_unfolding_all decide)⟩⟩

/-- Extracting a position from its GeoJSON encoding recovers it. -/
theorem asPair_posTree (c : Coordinate) : asPair (posTree c) = .ok c := by
  cases c
  rfl

/-- Extracting a list of positions from their GeoJSON encodings recovers
the original coordinates. -/
theorem mapExc_asPair_posTree (r : List Coordinate) :
    mapExc asPair (r.map posTree) = .ok r := by
  induction r with
  | nil => rfl
  | cons c cs ih =>
    simp only [List.map_cons, mapExc, asPair_posTree, ih]
    rfl

/-- Extracting a ring from its GeoJSON encoding recovers it. -/
theorem ringFromTree_ringTree (r : List Coordinate) :
    ringFromTree (ringTree r) = .ok r := by
  simp only [ringFromTree, ringTree, asList]
  rw [show (Except.ok (r.map posTree) : Except PyErr (List CoordTree)) >>= mapExc asPair
      = mapExc asPair (r.map posTree) from rfl]
  exact mapExc_asPair_posTree r

/-- Extracting all rings of a `Polygon` coordinate array recovers them. -/
theorem mapExc_ringFromTree_ringsTree (rs : List (List Coordinate)) :
    mapExc ringFromTree (rs.map ringTree) = .ok rs := by
  induction rs with
  | nil => rfl
  | cons r rest ih =>
    simp only [List.map_cons, mapExc, ringFromTree_ringTree, ih]
    rfl

/-- Extracting the ring lists of a `MultiPolygon` coordinate array recovers
them. -/
theorem mapExc_polys_polysTree (ps : List (List (List Coordinate))) :
    mapExc (fun poly => do
      let ts ← asList poly
      mapExc ringFromTree ts) (ps.map ringsTree) = .ok ps := by
  induction ps with
  | nil => rfl
  | cons poly rest ih =>
    simp only [List.map_cons, mapExc]
    rw [show ((do
        let ts ← asList (ringsTree poly)
        mapExc ringFromTree ts : Except PyErr (List (List Coordinate))))
      = mapExc ringFromTree (poly.map ringTree) from rfl]
    simp only [mapExc_ringFromTree_ringsTree, ih]
    rfl

/-- C6: `feature_to_shape_string` succeeds on `Polygon` features (rings
used directly) and on `MultiPolygon` features (ring lists flattened one
level), and raises the explicit unsupported-geometry `ValueError` for every
other geometry type. -/
theorem feature_to_shape_string_types :
    (∀ (rings : List (List Coordinate)) (p : ℕ) (c : Bool) (props : Option FeatureProps),
      feature_to_shape_string
          ⟨props, some ⟨some "Polygon".toList, some (ringsTree rings)⟩⟩ p c
        = .ok (rings_to_shape_string rings p c)) ∧
    (∀ (polys : List (List (List Coordinate))) (p : ℕ) (c : Bool)
        (props : Option FeatureProps),
      feature_to_shape_string
          ⟨props, some ⟨some "MultiPolygon".toList, some (polysTree polys)⟩⟩ p c
        = .ok (rings_to_shape_string polys.flatten p c)) ∧
    (∀ (f : Feature) (p : ℕ) (c : Bool),
      (f.geometry.getD ⟨none, none⟩).gtype ≠ some "Polygon".toList →
      (f.geometry.getD ⟨none, none⟩).gtype ≠ some "MultiPolygon".toList →
      feature_to_shape_string f p c = .error (.valueError unsupportedGeometryMsg)) := by
  refine ⟨?_, ?_, ?_⟩
  · intro rings p c props
    simp only [feature_to_shape_string, Option.getD_some, if_pos rfl, ringsTree, asList]
    rw [show ((do
        let ringTrees ← (Except.ok (rings.map ringTree) : Except PyErr (List CoordTree))
        let rs ← mapExc ringFromTree ringTrees
        pure (rings_to_shape_string rs p c) : Except PyErr PyStr))
      = (do
        let rs ← mapExc ringFromTree (rings.map ringTree)
        pure (rings_to_shape_string rs p c)) from rfl]
    rw [mapExc_ringFromTree_ringsTree]
    rfl
  · intro polys p c props
    show (do
        let polyTrees ← asList (polysTree polys)
        let polyRings ← mapExc (fun poly => do
          let ts ← asList poly
          mapExc ringFromTree ts) polyTrees
        pure (rings_to_shape_string polyRings.flatten p c) : Except PyErr PyStr)
      = .ok (rings_to_shape_string polys.flatten p c)
    rw [show asList (polysTree polys)
        = (.ok (polys.map ringsTree) : Except PyErr (List CoordTree)) from rfl]
    show (do
        let polyRings ← mapExc (fun poly => do
          let ts ← asList poly
          mapExc ringFromTree ts) (polys.map ringsTree)
        pure (rings_to_shape_string polyRings.flatten p c) : Except PyErr PyStr)
      = .ok (rings_to_shape_string polys.flatten p c)
    rw [mapExc_polys_polysTree]
    rfl
  · intro f p c h1 h2
    simp only [feature_to_shape_string]
    rw [if_neg h1, if_neg h2]

/-- Witness for C6: a one-ring `Polygon` feature serializes successfully,
and a `Point` feature raises the unsupported-geometry error. -/
theorem feature_to_shape_string_types_witness :
    feature_to_shape_string
        ⟨none, some ⟨some "Polygon".toList, some (ringsTree [[(0, 0), (1, 0), (0, 0)]])⟩⟩
        1 true
      = .ok (rings_to_shape_string [[(0, 0), (1, 0), (0, 0)]] 1 true) ∧
    ((⟨none, some ⟨some "Point".toList, none⟩⟩ : Feature).geometry.getD
        ⟨none, none⟩).gtype ≠ some "Polygon".toList ∧
    feature_to_shape_string (⟨none, some ⟨some "Point".toList, none⟩⟩ : Feature) 1 true
      = .error (.valueError unsupportedGeometryMsg) :=
  ⟨feature_to_shape_string_types.1 [[(0, 0), (1, 0), (0, 0)]] 1 true none,
   by decide,
   feature_to_shape_string_types.2.2 ⟨none, some ⟨some "Point".toList, none⟩⟩ 1 true
     (by decide) (by decide)⟩

/-- A left fold by `min` is a lower bound for the seed and all elements. -/
theorem foldl_min_le (xs : List ℚ) (a : ℚ) :
    xs.foldl min a ≤ a ∧ ∀ x ∈ xs, xs.foldl min a ≤ x := by
  induction xs generalizing a with
  | nil => exact ⟨le_refl a, by simp⟩
  | cons y ys ih =>
    obtain ⟨h1, h2⟩ := ih (min a y)
    refine ⟨le_trans h1 (min_le_left a y), ?_⟩
    intro x hx
    rcases List.mem_cons.1 hx with rfl | hx'
    · exact le_trans h1 (min_le_right a x)
    · exact h2 x hx'

/-- A left fold by `max` is an upper bound for the seed and all elements. -/
theorem le_foldl_max (xs : List ℚ) (a : ℚ) :
    a ≤ xs.foldl max a ∧ ∀ x ∈ xs, x ≤ xs.foldl max a := by
  induction xs generalizing a with
  | nil => exact ⟨le_refl a, by simp⟩
  | cons y ys ih =>
    obtain ⟨h1, h2⟩ := ih (max a y)
    refine ⟨le_trans (le_max_left a y) h1, ?_⟩
    intro x hx
    rcases List.mem_cons.1 hx with rfl | hx'
    · exact le_trans (le_max_right a x) h1
    · exact h2 x hx'

/-- `listMin` bounds every element from below. -/
theorem listMin_le {l : List ℚ} {m : ℚ} (h : listMin l = some m) :
    ∀ x ∈ l, m ≤ x := by
  match l with
  | [] => simp [listMin] at h
  | y :: ys =>
    simp only [listMin, Option.some_inj] at h
    intro x hx
    rcases List.mem_cons.1 hx with rfl | hx'
    · exact h ▸ (foldl_min_le ys x).1
    · exact h ▸ (foldl_min_le ys y).2 x hx'

/-- `listMax` bounds every element from above. -/
theorem le_listMax {l : List ℚ} {m : ℚ} (h : listMax l = some m) :
    ∀ x ∈ l, x ≤ m := by
  match l with
  | [] => simp [listMax] at h
  | y :: ys =>
    simp only [listMax, Option.some_inj] at h
    intro x hx
    rcases List.mem_cons.1 hx with rfl | hx'
    · exact h ▸ (le_foldl_max ys x).1
    · exact h ▸ (le_foldl_max ys y).2 x hx'

/-- The bounding box returned by `compute_bounds` encloses every point. -/
theorem compute_bounds_spec {coords : List Coordinate} {mnx mny mxx mxy : ℚ}
    (h : compute_bounds coords = some (mnx, mny, mxx, mxy)) :
    ∀ q ∈ coords, mnx ≤ q.1 ∧ mny ≤ q.2 ∧ q.1 ≤ mxx ∧ q.2 ≤ mxy := by
  unfold compute_bounds at h
  cases h1 : listMin (coords.map Prod.fst) with
  | none => rw [h1] at h; simp at h
  | some a =>
    cases h2 : listMin (coords.map Prod.snd) with
    | none => rw [h1, h2] at h; simp at h
    | some b =>
      cases h3 : listMax (coords.map Prod.fst) with
      | none => rw [h1, h2, h3] at h; simp at h
      | some c =>
        cases h4 : listMax (coords.map Prod.snd) with
        | none => rw [h1, h2, h3, h4] at h; simp at h
        | some d =>
          rw [h1, h2, h3, h4] at h
          simp only [Option.some_inj, Prod.mk.injEq] at h
          obtain ⟨rfl, rfl, rfl, rfl⟩ := h
          intro q hq
          exact ⟨listMin_le h1 q.1 (List.mem_map_of_mem Prod.fst hq),
                 listMin_le h2 q.2 (List.mem_map_of_mem Prod.snd hq),
                 le_listMax h3 q.1 (List.mem_map_of_mem Prod.fst hq),
                 le_listMax h4 q.2 (List.mem_map_of_mem Prod.snd hq)⟩

/-- The single scale factor used by `normalize_to_view`: the smaller of the
two per-axis scales (geometry_utils.py lines 74–78). -/
def viewScale (width height padding mnx mny mxx mxy : ℚ) : ℚ :=
  min ((width - 2 * padding) / max (mxx - mnx) (1 / 1000000))
      ((height - 2 * padding) / max (mxy - mny) (1 / 1000000))

/-- C7 (amended): for canvas dimensions that leave room for the padding
(`2·padding ≤ width` and `2·padding ≤ height`), every output point of
`normalize_to_view` lies within `[padding, width-padding]` horizontally and
`[padding, height-padding]` vertically, and the output is the input mapped
with the SAME single non-negative scale factor (the smaller per-axis scale)
on both axes. -/
theorem normalize_to_view_bounds :
    ∀ (coords : List Coordinate) (width height padding mnx mny mxx mxy : ℚ),
      compute_bounds coords = some (mnx, mny, mxx, mxy) →
      2 * padding ≤ width → 2 * padding ≤ height →
      (∀ q ∈ normalize_to_view coords width height padding,
        padding ≤ q.1 ∧ q.1 ≤ width - padding ∧
        padding ≤ q.2 ∧ q.2 ≤ height - padding) ∧
      0 ≤ viewScale width height padding mnx mny mxx mxy ∧
      normalize_to_view coords width height padding
        = coords.map (fun c =>
            (padding + (c.1 - mnx) * viewScale width height padding mnx mny mxx mxy,
             height - (padding + (c.2 - mny) *
               viewScale width height padding mnx mny mxx mxy))) := by
  intro coords width height padding mnx mny mxx mxy hcb hw hh
  have hspec := compute_bounds_spec hcb
  set sx : ℚ := max (mxx - mnx) (1 / 1000000) with hsx
  set sy : ℚ := max (mxy - mny) (1 / 1000000) with hsy
  have hsx0 : 0 < sx := lt_of_lt_of_le (by norm_num) (le_max_right _ _)
  have hsy0 : 0 < sy := lt_of_lt_of_le (by norm_num) (le_max_right _ _)
  have hscx : 0 ≤ (width - 2 * padding) / sx :=
    div_nonneg (by linarith) (le_of_lt hsx0)
  have hscy : 0 ≤ (height - 2 * padding) / sy :=
    div_nonneg (by linarith) (le_of_lt hsy0)
  have hs0 : 0 ≤ viewScale width height padding mnx mny mxx mxy :=
    le_min hscx hscy
  have hform : normalize_to_view coords width height padding
      = coords.map (fun c =>
          (padding + (c.1 - mnx) * viewScale width height padding mnx mny mxx mxy,
           height - (padding + (c.2 - mny) *
             viewScale width height padding mnx mny mxx mxy))) := by
    unfold normalize_to_view
    rw [hcb]
    rfl
  refine ⟨?_, hs0, hform⟩
  intro q hq
  rw [hform] at hq
  obtain ⟨c, hc, rfl⟩ := List.mem_map.1 hq
  obtain ⟨hb1, hb2, hb3, hb4⟩ := hspec c hc
  set s : ℚ := viewScale width height padding mnx mny mxx mxy with hsdef
  have hsle_x : s ≤ (width - 2 * padding) / sx := min_le_left _ _
  have hsle_y : s ≤ (height - 2 * padding) / sy := min_le_right _ _
  have hxnn : 0 ≤ c.1 - mnx := by linarith
  have hynn : 0 ≤ c.2 - mny := by linarith
  have hxspan : c.1 - mnx ≤ sx := le_trans (by linarith) (le_max_left _ _)
  have hyspan : c.2 - mny ≤ sy := le_trans (by linarith) (le_max_left _ _)
  have hxprod : (c.1 - mnx) * s ≤ width - 2 * padding := by
    have h1 : (c.1 - mnx) * s ≤ sx * ((width - 2 * padding) / sx) :=
      mul_le_mul hxspan hsle_x hs0 (le_of_lt hsx0)
    rw [mul_div_cancel₀ _ (ne_of_gt hsx0)] at h1
    exact h1
  have hyprod : (c.2 - mny) * s ≤ height - 2 * padding := by
    have h1 : (c.2 - mny) * s ≤ sy * ((height - 2 * padding) / sy) :=
      mul_le_mul hyspan hsle_y hs0 (le_of_lt hsy0)
    rw [mul_div_cancel₀ _ (ne_of_gt hsy0)] at h1
    exact h1
  have hxnn2 : 0 ≤ (c.1 - mnx) * s := mul_nonneg hxnn hs0
  have hynn2 : 0 ≤ (c.2 - mny) * s := mul_nonneg hynn hs0
  refine ⟨by simpa using hxnn2, by simp only []; linarith,
          by simp only []; linarith, by simp only []; linarith⟩

/-- C7 counterexample to the unrestricted claim: with canvas width 0 (and
padding 10) the output of `normalize_to_view` on the non-degenerate input
`[(0,0), (1,1)]` does NOT stay within `[padding, width-padding]`
horizontally and `[padding, height-padding]` vertically. -/
theorem normalize_to_view_bounds_cex :
    ¬ ∀ q ∈ normalize_to_view [(0, 0), (1, 1)] 0 100 10,
        (10 : ℚ) ≤ q.1 ∧ q.1 ≤ 0 - 10 ∧ (10 : ℚ) ≤ q.2 ∧ q.2 ≤ 100 - 10 := by
  with_unfolding_all decide

/-- Witness for C7: the input `[(0,0), (1,2)]` on a 100 × 60 canvas with
padding 10 satisfies the amended theorem's hypotheses. -/
theorem normalize_to_view_bounds_witness :
    compute_bounds [((0 : ℚ), (0 : ℚ)), (1, 2)] = some (0, 0, 1, 2) ∧
    ((∀ q ∈ normalize_to_view [((0 : ℚ), (0 : ℚ)), (1, 2)] 100 60 10,
        (10 : ℚ) ≤ q.1 ∧ q.1 ≤ 100 - 10 ∧ (10 : ℚ) ≤ q.2 ∧ q.2 ≤ 60 - 10) ∧
      0 ≤ viewScale 100 60 10 0 0 1 2 ∧
      normalize_to_view [((0 : ℚ), (0 : ℚ)), (1, 2)] 100 60 10
        = [((0 : ℚ), (0 : ℚ)), (1, 2)].map (fun c =>
            (10 + (c.1 - 0) * viewScale 100 60 10 0 0 1 2,
             60 - (10 + (c.2 - 0) * viewScale 100 60 10 0 0 1 2)))) :=
  ⟨by with_unfolding_all decide,
   normalize_to_view_bounds [((0 : ℚ), (0 : ℚ)), (1, 2)] 100 60 10 0 0 1 2
     (by with_unfolding_all decide)
     (by with_unfolding_all decide)
     (by with_unfolding_all decide)⟩

/-! ## Round-trip lemmas for the shape-string codec -/

/-- `Nat.digitChar` of a digit value evaluates back to it. -/
theorem digitVal_digitChar {d : ℕ} (h : d < 10) :
    digitVal (Nat.digitChar d) = d := by
  interval_cases d <;> rfl

/-- `Nat.digitChar` of a digit value is a decimal digit character. -/
theorem isDigit_digitChar {d : ℕ} (h : d < 10) :
    (Nat.digitChar d).isDigit = true := by
  interval_cases d <;> rfl

/-- `natDigitsAux` never returns the empty list. -/
theorem natDigitsAux_ne_nil (fuel n : ℕ) : natDigitsAux (fuel + 1) n ≠ [] := by
  unfold natDigitsAux
  by_cases h : n < 10
  · simp [h]
  · simp [h]

/-- Every character produced by `natDigitsAux` is a decimal digit. -/
theorem natDigitsAux_all_digit :
    ∀ (fuel n : ℕ), n < fuel → ∀ c ∈ natDigitsAux fuel n, c.isDigit = true := by
  intro fuel
  induction fuel with
  | zero => intro n h; omega
  | succ fuel ih =>
    intro n hn c hc
    unfold natDigitsAux at hc
    by_cases h : n < 10
    · rw [if_pos h] at hc
      rcases List.mem_singleton.1 hc with rfl
      exact isDigit_digitChar h
    · rw [if_neg h] at hc
      rcases List.mem_append.1 hc with h1 | h2
      · have hdiv : n / 10 < fuel := by
          have := Nat.div_lt_self (by omega : 0 < n) (by omega : 1 < 10)
          omega
        exact ih (n / 10) hdiv c h1
      · rcases List.mem_singleton.1 h2 with rfl
        exact isDigit_digitChar (Nat.mod_lt n (by omega))

/-- `digitsVal` of the digits of `n` is `n` itself. -/
theorem digitsVal_natDigitsAux :
    ∀ (fuel n : ℕ), n < fuel → digitsVal (natDigitsAux fuel n) = n := by
  intro fuel
  induction fuel with
  | zero => intro n h; omega
  | succ fuel ih =>
    intro n hn
    unfold natDigitsAux
    by_cases h : n < 10
    · rw [if_pos h]
      simp [digitsVal, digitVal_digitChar h]
    · rw [if_neg h]
      have hdiv : n / 10 < fuel := by
        have := Nat.div_lt_self (by omega : 0 < n) (by omega : 1 < 10)
        omega
      unfold digitsVal
      rw [List.foldl_append]
      have hfold := ih (n / 10) hdiv
      unfold digitsVal at hfold
      rw [hfold]
      simp only [List.foldl_cons, List.foldl_nil]
      rw [digitVal_digitChar (Nat.mod_lt n (by omega))]
      omega

/-- The digit string of a number below `10 ^ p` has at most `p` digits. -/
theorem natDigitsAux_length_le :
    ∀ (fuel n p : ℕ), n < fuel → 1 ≤ p → n < 10 ^ p →
      (natDigitsAux fuel n).length ≤ p := by
  intro fuel
  induction fuel with
  | zero => intro n p h; omega
  | succ fuel ih =>
    intro n p hn hp hnp
    unfold natDigitsAux
    by_cases h : n < 10
    · rw [if_pos h]
      simpa using hp
    · rw [if_neg h]
      have hdiv : n / 10 < fuel := by
        have := Nat.div_lt_self (by omega : 0 < n) (by omega : 1 < 10)
        omega
      have hp2 : 2 ≤ p := by
        by_contra hcon
        have hp1 : p = 1 := by omega
        rw [hp1] at hnp
        simp at hnp
        omega
      have hbound : n / 10 < 10 ^ (p - 1) := by
        rw [Nat.div_lt_iff_lt_mul (by omega : 0 < 10)]
        have : 10 ^ (p - 1) * 10 = 10 ^ p := by
          rw [← pow_succ]
          congr 1
          omega
        omega
      have := ih (n / 10) (p - 1) hdiv (by omega) hbound
      simp only [List.length_append, List.length_singleton]
      omega

/-- `natDigits n` is non-empty. -/
theorem natDigits_ne_nil (n : ℕ) : natDigits n ≠ [] := natDigitsAux_ne_nil n n

/-- `natDigits n` consists of decimal digit characters. -/
theorem natDigits_all_digit (n : ℕ) : ∀ c ∈ natDigits n, c.isDigit = true :=
  natDigitsAux_all_digit (n + 1) n (by omega)

/-- `digitsVal (natDigits n) = n`. -/
theorem digitsVal_natDigits (n : ℕ) : digitsVal (natDigits n) = n :=
  digitsVal_natDigitsAux (n + 1) n (by omega)

/-- Length bound for `natDigits`. -/
theorem natDigits_length_le {n p : ℕ} (hp : 1 ≤ p) (h : n < 10 ^ p) :
    (natDigits n).length ≤ p :=
  natDigitsAux_length_le (n + 1) n p (by omega) hp h

/-- A decimal digit character is not whitespace and is none of the
separator or sign characters used by the codec. -/
theorem isDigit_excl {c : Char} (h : c.isDigit = true) :
    c.isWhitespace = false ∧ c ≠ ',' ∧ c ≠ ';' ∧ c ≠ '@' ∧
    c ≠ '.' ∧ c ≠ '-' ∧ c ≠ '+' := by
  refine ⟨?_, ?_, ?_, ?_, ?_, ?_, ?_⟩
  · by_contra hw
    rw [Bool.not_eq_false] at hw
    simp only [Char.isWhitespace, Bool.or_eq_true, decide_eq_true_eq, or_assoc] at hw
    rcases hw with rfl | rfl | rfl | rfl <;> exact absurd h (by decide)
  all_goals intro heq
  all_goals rw [heq] at h
  all_goals exact absurd h (by decide)

/-- Every character of `padZeros p ds` is a digit if those of `ds` are. -/
theorem padZeros_all_digit {p : ℕ} {ds : List Char}
    (h : ∀ c ∈ ds, c.isDigit = true) :
    ∀ c ∈ padZeros p ds, c.isDigit = true := by
  intro c hc
  rcases List.mem_append.1 hc with h1 | h2
  · rcases List.eq_of_mem_replicate h1 with rfl
    rfl
  · exact h c h2

/-- Leading zeros do not change the numeric value of a digit string. -/
theorem digitsVal_padZeros (p : ℕ) (ds : List Char) :
    digitsVal (padZeros p ds) = digitsVal ds := by
  unfold padZeros digitsVal
  rw [List.foldl_append]
  have : ∀ k, List.foldl (fun a c => 10 * a + digitVal c) 0 (List.replicate k '0') = 0 := by
    intro k
    induction k with
    | zero => rfl
    | succ k ih => simpa [List.replicate_succ] using ih
  rw [this (p - ds.length)]

/-- `padZeros p ds` has length exactly `p` when `ds` is at most `p` long. -/
theorem padZeros_length {p : ℕ} {ds : List Char} (h : ds.length ≤ p) :
    (padZeros p ds).length = p := by
  simp only [padZeros, List.length_append, List.length_replicate]
  omega

/-- `dropWhile` is the identity on a list none of whose elements satisfy
the predicate. -/
theorem dropWhile_eq_self_of_all {p : Char → Bool} {l : List Char}
    (h : ∀ c ∈ l, p c = false) : l.dropWhile p = l := by
  cases l with
  | nil => rfl
  | cons c cs => simp [List.dropWhile_cons, h c (List.mem_cons_self c cs)]

/-- `pyStrip` is the identity on a string with no whitespace characters. -/
theorem pyStrip_eq_self {l : PyStr} (h : ∀ c ∈ l, c.isWhitespace = false) :
    pyStrip l = l := by
  unfold pyStrip
  rw [dropWhile_eq_self_of_all h,
      dropWhile_eq_self_of_all (by intro c hc; exact h c (List.mem_reverse.1 hc)),
      List.reverse_reverse]

/-- Splitting a string that does not contain the separator yields the
one-element list holding it. -/
theorem pySplit_eq_single {sep : Char} {l : PyStr} (h : ∀ c ∈ l, c ≠ sep) :
    pySplit sep l = [l] := by
  induction l with
  | nil => rfl
  | cons c cs ih =>
    unfold pySplit
    rw [if_neg (h c (List.mem_cons_self c cs))]
    rw [ih (fun x hx => h x (List.mem_cons_of_mem c hx))]

/-- Splitting past a separator-free prefix peels it off. -/
theorem pySplit_append_cons {sep : Char} {xs : PyStr} (rest : PyStr)
    (h : ∀ c ∈ xs, c ≠ sep) :
    pySplit sep (xs ++ sep :: rest) = xs :: pySplit sep rest := by
  induction xs with
  | nil =>
    show pySplit sep (sep :: rest) = [] :: pySplit sep rest
    conv_lhs => unfold pySplit
    rw [if_pos rfl]
  | cons c cs ih =>
    show pySplit sep (c :: (cs ++ sep :: rest)) = (c :: cs) :: pySplit sep rest
    conv_lhs => unfold pySplit
    rw [if_neg (h c (List.mem_cons_self c cs))]
    rw [ih (fun x hx => h x (List.mem_cons_of_mem c hx))]

/-- `pySplit` is a left inverse of `joinSep` on non-empty part lists whose
parts avoid the separator. -/
theorem pySplit_joinSep {sep : Char} :
    ∀ {parts : List PyStr}, parts ≠ [] →
      (∀ part ∈ parts, ∀ c ∈ part, c ≠ sep) →
      pySplit sep (joinSep sep parts) = parts := by
  intro parts
  induction parts with
  | nil => intro h; exact absurd rfl h
  | cons x rest ih =>
    intro _ hsep
    cases rest with
    | nil =>
      show pySplit sep x = [x]
      exact pySplit_eq_single (hsep x (List.mem_cons_self x []))
    | cons y rest' =>
      show pySplit sep (x ++ sep :: joinSep sep (y :: rest')) = x :: y :: rest'
      rw [pySplit_append_cons _ (hsep x (List.mem_cons_self x _))]
      rw [ih (by simp) (fun part hp => hsep part (List.mem_cons_of_mem x hp))]

/-- `joinSep` of a list headed by a non-empty part is non-empty. -/
theorem joinSep_ne_nil {sep : Char} {x : PyStr} {rest : List PyStr}
    (hx : x ≠ []) : joinSep sep (x :: rest) ≠ [] := by
  cases rest with
  | nil => exact hx
  | cons y rest' =>
    show x ++ sep :: joinSep sep (y :: rest') ≠ []
    simp

/-- Every character of `formatFixed p q` is a digit, `'-'` or `'.'`. -/
theorem formatFixed_chars (p : ℕ) (q : ℚ) :
    ∀ c ∈ formatFixed p q, c.isDigit = true ∨ c = '-' ∨ c = '.' := by
  intro c hc
  unfold formatFixed at hc
  by_cases hp : p = 0
  · rw [if_pos hp] at hc
    rcases List.mem_append.1 hc with h1 | h2
    · right; left
      by_cases hn : roundHalfEven (q * 10 ^ p) < 0
      · rw [if_pos hn] at h1
        exact List.mem_singleton.1 h1
      · rw [if_neg hn] at h1
        simp at h1
    · exact Or.inl (natDigits_all_digit _ c h2)
  · rw [if_neg hp] at hc
    rcases List.mem_append.1 hc with h1 | h2
    · rcases List.mem_append.1 h1 with h3 | h4
      · right; left
        by_cases hn : roundHalfEven (q * 10 ^ p) < 0
        · rw [if_pos hn] at h3
          exact List.mem_singleton.1 h3
        · rw [if_neg hn] at h3
          simp at h3
      · exact Or.inl (natDigits_all_digit _ c h4)
    · rcases List.mem_cons.1 h2 with rfl | h5
      · right; right; rfl
      · exact Or.inl (padZeros_all_digit (natDigits_all_digit _) c h5)

/-- No character of `formatFixed p q` is whitespace or one of the
separator characters `','`, `';'`, `'@'`. -/
theorem formatFixed_chars_safe (p : ℕ) (q : ℚ) :
    ∀ c ∈ formatFixed p q,
      c.isWhitespace = false ∧ c ≠ ',' ∧ c ≠ ';' ∧ c ≠ '@' := by
  intro c hc
  rcases formatFixed_chars p q c hc with hd | rfl | rfl
  · obtain ⟨hw, h1, h2, h3, -, -, -⟩ := isDigit_excl hd
    exact ⟨hw, h1, h2, h3⟩
  · exact ⟨rfl, by decide, by decide, by decide⟩
  · exact ⟨rfl, by decide, by decide, by decide⟩

/-- `formatFixed` never returns the empty string. -/
theorem formatFixed_ne_nil (p : ℕ) (q : ℚ) : formatFixed p q ≠ [] := by
  unfold formatFixed
  by_cases hp : p = 0
  · rw [if_pos hp]
    intro h
    rcases List.append_eq_nil.1 h with ⟨-, h2⟩
    exact natDigits_ne_nil _ h2
  · rw [if_neg hp]
    intro h
    rcases List.append_eq_nil.1 h with ⟨h1, h2⟩
    rcases List.append_eq_nil.1 h1 with ⟨-, h3⟩
    exact natDigits_ne_nil _ h3

/-- The sign factor reassembles an integer from its absolute value. -/
theorem sign_mul_natAbs (n : ℤ) :
    (if n < 0 then (-1 : ℚ) else 1) * (n.natAbs : ℚ) = (n : ℚ) := by
  by_cases hn : n < 0
  · rw [if_pos hn, Int.cast_natAbs, abs_of_neg (by exact_mod_cast hn)]
    push_cast
    ring
  · rw [if_neg hn, Int.cast_natAbs,
        abs_of_nonneg (by exact_mod_cast (not_lt.1 hn))]
    ring

/-- The integer and fractional digit groups reassemble `n / 10 ^ p`. -/
theorem digit_groups_value (n : ℤ) (p : ℕ) :
    (if n < 0 then (-1 : ℚ) else 1) *
        ((n.natAbs / 10 ^ p : ℕ) + ((n.natAbs % 10 ^ p : ℕ) : ℚ) / 10 ^ p)
      = (n : ℚ) / 10 ^ p := by
  have h10 : ((10 : ℚ) ^ p) ≠ 0 := by positivity
  have hdm : 10 ^ p * (n.natAbs / 10 ^ p) + n.natAbs % 10 ^ p = n.natAbs :=
    Nat.div_add_mod n.natAbs (10 ^ p)
  have hval : ((n.natAbs / 10 ^ p : ℕ) : ℚ) + ((n.natAbs % 10 ^ p : ℕ) : ℚ) / 10 ^ p
      = (n.natAbs : ℚ) / 10 ^ p := by
    field_simp
    rw [mul_comm]
    exact_mod_cast hdm
  rw [hval, mul_div_assoc']
  rw [sign_mul_natAbs n]

/-- Parsing the fixed-point rendering of `q` recovers the rounded value. -/
theorem parseFloat?_formatFixed (p : ℕ) (q : ℚ) :
    parseFloat? (formatFixed p q) = some (rnd p q) := by
  have hsafe := formatFixed_chars_safe p q
  have hstrip : pyStrip (formatFixed p q) = formatFixed p q :=
    pyStrip_eq_self (fun c hc => (hsafe c hc).1)
  have hdotfree : ∀ x : ℕ, ∀ c ∈ natDigits x, c ≠ '.' := fun x c hc =>
    (isDigit_excl (natDigits_all_digit x c hc)).2.2.2.2.1
  have hpaddot : ∀ (k x : ℕ), ∀ c ∈ padZeros k (natDigits x), c ≠ '.' := fun k x c hc =>
    (isDigit_excl (padZeros_all_digit (natDigits_all_digit x) c hc)).2.2.2.2.1
  have hrnd : rnd p q = ((roundHalfEven (q * 10 ^ p) : ℤ) : ℚ) / 10 ^ p := rfl
  simp only [parseFloat?]
  rw [hstrip]
  by_cases hp : p = 0
  · subst hp
    by_cases hneg : roundHalfEven (q * 10 ^ 0) < 0
    · have hff : formatFixed 0 q
          = '-' :: natDigits (roundHalfEven (q * 10 ^ 0)).natAbs := by
        unfold formatFixed
        rw [if_pos rfl, if_pos hneg]
        rfl
      rw [hff]
      simp only [List.head?_cons, List.tail_cons]
      rw [if_pos (Or.inl trivial), if_pos trivial]
      rw [pySplit_eq_single (hdotfree _)]
      show (if natDigits (roundHalfEven (q * 10 ^ 0)).natAbs ≠ [] ∧
              (natDigits (roundHalfEven (q * 10 ^ 0)).natAbs).all Char.isDigit then
          some ((-1 : ℚ) *
            (digitsVal (natDigits (roundHalfEven (q * 10 ^ 0)).natAbs) : ℚ))
        else none) = some (rnd 0 q)
      rw [if_pos ⟨natDigits_ne_nil _, List.all_eq_true.2 (natDigits_all_digit _)⟩]
      rw [digitsVal_natDigits, hrnd]
      rw [show ((-1 : ℚ)) = if roundHalfEven (q * 10 ^ 0) < 0 then (-1 : ℚ) else 1 from
        (if_pos hneg).symm]
      rw [sign_mul_natAbs]
      simp
    · have hff : formatFixed 0 q
          = natDigits (roundHalfEven (q * 10 ^ 0)).natAbs := by
        unfold formatFixed
        rw [if_pos rfl, if_neg hneg]
        rfl
      rw [hff]
      obtain ⟨d, ds, hds⟩ :=
        List.exists_cons_of_ne_nil (natDigits_ne_nil (roundHalfEven (q * 10 ^ 0)).natAbs)
      have hdd : d.isDigit = true :=
        natDigits_all_digit _ d (by rw [hds]; exact List.mem_cons_self d ds)
      obtain ⟨-, -, -, -, -, hdm, hdp⟩ := isDigit_excl hdd
      rw [hds]
      simp only [List.head?_cons, List.tail_cons]
      rw [if_neg (fun hcon => hdm (Option.some_inj.1 hcon)),
          if_neg (fun hcon => Or.elim hcon
            (fun h1 => hdm (Option.some_inj.1 h1))
            (fun h2 => hdp (Option.some_inj.1 h2)))]
      rw [← hds]
      rw [pySplit_eq_single (hdotfree _)]
      show (if natDigits (roundHalfEven (q * 10 ^ 0)).natAbs ≠ [] ∧
              (natDigits (roundHalfEven (q * 10 ^ 0)).natAbs).all Char.isDigit then
          some ((1 : ℚ) *
            (digitsVal (natDigits (roundHalfEven (q * 10 ^ 0)).natAbs) : ℚ))
        else none) = some (rnd 0 q)
      rw [if_pos ⟨natDigits_ne_nil _, List.all_eq_true.2 (natDigits_all_digit _)⟩]
      rw [digitsVal_natDigits, hrnd]
      rw [show ((1 : ℚ)) = if roundHalfEven (q * 10 ^ 0) < 0 then (-1 : ℚ) else 1 from
        (if_neg hneg).symm]
      rw [sign_mul_natAbs]
      simp
  · have hp1 : 1 ≤ p := by omega
    have hmod : (roundHalfEven (q * 10 ^ p)).natAbs % 10 ^ p < 10 ^ p :=
      Nat.mod_lt _ (by positivity)
    have hlen : (padZeros p
        (natDigits ((roundHalfEven (q * 10 ^ p)).natAbs % 10 ^ p))).length = p :=
      padZeros_length (natDigits_length_le hp1 hmod)
    by_cases hneg : roundHalfEven (q * 10 ^ p) < 0
    · have hff : formatFixed p q
          = '-' :: (natDigits ((roundHalfEven (q * 10 ^ p)).natAbs / 10 ^ p) ++
              '.' :: padZeros p
                (natDigits ((roundHalfEven (q * 10 ^ p)).natAbs % 10 ^ p))) := by
        unfold formatFixed
        rw [if_neg hp, if_pos hneg]
        rfl
      rw [hff]
      simp only [List.head?_cons, List.tail_cons]
      rw [if_pos (Or.inl trivial), if_pos trivial]
      rw [pySplit_append_cons _ (hdotfree _), pySplit_eq_single (hpaddot _ _)]
      show (if (natDigits ((roundHalfEven (q * 10 ^ p)).natAbs / 10 ^ p) ≠ [] ∨
              padZeros p (natDigits ((roundHalfEven (q * 10 ^ p)).natAbs % 10 ^ p)) ≠ []) ∧
              (natDigits ((roundHalfEven (q * 10 ^ p)).natAbs / 10 ^ p)).all Char.isDigit ∧
              (padZeros p
                (natDigits ((roundHalfEven (q * 10 ^ p)).natAbs % 10 ^ p))).all Char.isDigit then
          some ((-1 : ℚ) *
            ((digitsVal (natDigits ((roundHalfEven (q * 10 ^ p)).natAbs / 10 ^ p)) : ℚ) +
              (digitsVal (padZeros p
                (natDigits ((roundHalfEven (q * 10 ^ p)).natAbs % 10 ^ p))) : ℚ) /
              10 ^ (padZeros p
                (natDigits ((roundHalfEven (q * 10 ^ p)).natAbs % 10 ^ p))).length))
        else none) = some (rnd p q)
      rw [if_pos ⟨Or.inl (natDigits_ne_nil _),
        List.all_eq_true.2 (natDigits_all_digit _),
        List.all_eq_true.2 (padZeros_all_digit (natDigits_all_digit _))⟩]
      rw [digitsVal_natDigits, digitsVal_padZeros, digitsVal_natDigits, hlen, hrnd]
      rw [show ((-1 : ℚ)) = if roundHalfEven (q * 10 ^ p) < 0 then (-1 : ℚ) else 1 from
        (if_pos hneg).symm]
      exact congrArg some (digit_groups_value _ p)
    · have hff : formatFixed p q
          = natDigits ((roundHalfEven (q * 10 ^ p)).natAbs / 10 ^ p) ++
              '.' :: padZeros p
                (natDigits ((roundHalfEven (q * 10 ^ p)).natAbs % 10 ^ p)) := by
        unfold formatFixed
        rw [if_neg hp, if_neg hneg]
        rfl
      rw [hff]
      obtain ⟨d, ds, hds⟩ :=
        List.exists_cons_of_ne_nil
          (natDigits_ne_nil ((roundHalfEven (q * 10 ^ p)).natAbs / 10 ^ p))
      have hdd : d.isDigit = true :=
        natDigits_all_digit _ d (by rw [hds]; exact List.mem_cons_self d ds)
      obtain ⟨-, -, -, -, -, hdm, hdp⟩ := isDigit_excl hdd
      rw [hds]
      simp only [List.cons_append, List.head?_cons, List.tail_cons]
      rw [if_neg (fun hcon => hdm (Option.some_inj.1 hcon)),
          if_neg (fun hcon => Or.elim hcon
            (fun h1 => hdm (Option.some_inj.1 h1))
            (fun h2 => hdp (Option.some_inj.1 h2)))]
      rw [← List.cons_append, ← hds]
      rw [pySplit_append_cons _ (hdotfree _), pySplit_eq_single (hpaddot _ _)]
      show (if (natDigits ((roundHalfEven (q * 10 ^ p)).natAbs / 10 ^ p) ≠ [] ∨
              padZeros p (natDigits ((roundHalfEven (q * 10 ^ p)).natAbs % 10 ^ p)) ≠ []) ∧
              (natDigits ((roundHalfEven (q * 10 ^ p)).natAbs / 10 ^ p)).all Char.isDigit ∧
              (padZeros p
                (natDigits ((roundHalfEven (q * 10 ^ p)).natAbs % 10 ^ p))).all Char.isDigit then
          some ((1 : ℚ) *
            ((digitsVal (natDigits ((roundHalfEven (q * 10 ^ p)).natAbs / 10 ^ p)) : ℚ) +
              (digitsVal (padZeros p
                (natDigits ((roundHalfEven (q * 10 ^ p)).natAbs % 10 ^ p))) : ℚ) /
              10 ^ (padZeros p
                (natDigits ((roundHalfEven (q * 10 ^ p)).natAbs % 10 ^ p))).length))
        else none) = some (rnd p q)
      rw [if_pos ⟨Or.inl (natDigits_ne_nil _),
        List.all_eq_true.2 (natDigits_all_digit _),
        List.all_eq_true.2 (padZeros_all_digit (natDigits_all_digit _))⟩]
      rw [digitsVal_natDigits, digitsVal_padZeros, digitsVal_natDigits, hlen, hrnd]
      rw [show ((1 : ℚ)) = if roundHalfEven (q * 10 ^ p) < 0 then (-1 : ℚ) else 1 from
        (if_neg hneg).symm]
      exact congrArg some (digit_groups_value _ p)

/-- A character of `formatFixed` output is never a comma. -/
theorem isDigit_excl_comma {c : Char}
    (h : c.isDigit = true ∨ c = '-' ∨ c = '.') : c ≠ ',' := by
  rcases h with hd | rfl | rfl
  · exact (isDigit_excl hd).2.1
  · decide
  · decide

/-- Characters of a serialized vertex are never whitespace, `';'` or `'@'`. -/
theorem vertexText_chars_safe (p : ℕ) (v : Coordinate) :
    ∀ ch ∈ formatFixed p v.1 ++ ',' :: formatFixed p v.2,
      ch.isWhitespace = false ∧ ch ≠ ';' ∧ ch ≠ '@' := by
  intro ch hch
  rcases List.mem_append.1 hch with h1 | h2
  · obtain ⟨hw, -, hs, ha⟩ := formatFixed_chars_safe p v.1 ch h1
    exact ⟨hw, hs, ha⟩
  · rcases List.mem_cons.1 h2 with rfl | h3
    · exact ⟨rfl, by decide, by decide⟩
    · obtain ⟨hw, -, hs, ha⟩ := formatFixed_chars_safe p v.2 ch h3
      exact ⟨hw, hs, ha⟩

/-- Parsing a serialized vertex recovers the rounded coordinate pair. -/
theorem parseVertex?_formatPair (p : ℕ) (v : Coordinate) :
    parseVertex? (formatFixed p v.1 ++ ',' :: formatFixed p v.2)
      = some (rnd p v.1, rnd p v.2) := by
  have hstrip : pyStrip (formatFixed p v.1 ++ ',' :: formatFixed p v.2)
      = formatFixed p v.1 ++ ',' :: formatFixed p v.2 :=
    pyStrip_eq_self (fun ch hch => (vertexText_chars_safe p v ch hch).1)
  have hne : formatFixed p v.1 ++ ',' :: formatFixed p v.2 ≠ [] := by simp
  simp only [parseVertex?]
  rw [hstrip, if_neg hne]
  rw [pySplit_append_cons _
    (fun ch hch => (isDigit_excl_comma (formatFixed_chars p v.1 ch hch)))]
  rw [pySplit_eq_single
    (fun ch hch => (isDigit_excl_comma (formatFixed_chars p v.2 ch hch)))]
  show (match parseFloat? (formatFixed p v.1), parseFloat? (formatFixed p v.2) with
    | some lon, some lat => some (lon, lat)
    | _, _ => none) = some (rnd p v.1, rnd p v.2)
  rw [parseFloat?_formatFixed, parseFloat?_formatFixed]

/-- Parsing the `';'`-joined serialization of a vertex list recovers the
rounded vertices. -/
theorem filterMap_parseVertex (p : ℕ) (r : List Coordinate) :
    ((r.map fun v => formatFixed p v.1 ++ ',' :: formatFixed p v.2).filterMap
        parseVertex?)
      = r.map fun v => (rnd p v.1, rnd p v.2) := by
  induction r with
  | nil => rfl
  | cons v vs ih =>
    simp only [List.map_cons, List.filterMap_cons, parseVertex?_formatPair, ih]

/-- `parseRingCoords` inverts the serialization of a non-empty vertex list. -/
theorem parseRingCoords_serialized (p : ℕ) (r : List Coordinate) (hr : r ≠ []) :
    parseRingCoords
        (joinSep ';' (r.map fun v => formatFixed p v.1 ++ ',' :: formatFixed p v.2))
      = r.map fun v => (rnd p v.1, rnd p v.2) := by
  unfold parseRingCoords
  rw [pySplit_joinSep (by simpa using hr)
    (by
      intro part hpart c hc
      obtain ⟨v, -, rfl⟩ := List.mem_map.1 hpart
      exact (vertexText_chars_safe p v c hc).2.1)]
  exact filterMap_parseVertex p r

/-- `closeRing` leaves an already-closed vertex list unchanged. -/
theorem closeRing_of_closed {cs : List Coordinate} (h : cs.head? = cs.getLast?) :
    closeRing cs = cs := by
  cases cs with
  | nil => rfl
  | cons c rest =>
    have hlast : (c :: rest).getLast? = some c := by rw [← h]; rfl
    simp only [closeRing, List.head?_cons, hlast]
    rw [if_pos trivial]

/-- A closed non-empty ring serializes to the plain join of its vertex
texts (no vertex is added or dropped). -/
theorem coords_to_string_closed (p : ℕ) (r : List Coordinate) (hr : r ≠ [])
    (hcl : r.head? = r.getLast?) :
    coordinates_to_shape_string r p true
      = joinSep ';' (r.map fun v => formatFixed p v.1 ++ ',' :: formatFixed p v.2) := by
  obtain ⟨c, rest, rfl⟩ := List.exists_cons_of_ne_nil hr
  have hlast : (c :: rest).getLast? = some c := by rw [← hcl]; rfl
  simp only [coordinates_to_shape_string]
  rw [if_neg (fun hcon => hcon.2 trivial), if_neg (fun hcon => hcon.2 hlast)]

/-- Members of a `joinSep` are the separator or characters of the parts. -/
theorem mem_joinSep {sep : Char} :
    ∀ {parts : List PyStr} {c : Char}, c ∈ joinSep sep parts →
      c = sep ∨ ∃ part ∈ parts, c ∈ part := by
  intro parts
  induction parts with
  | nil => intro c hc; simp [joinSep] at hc
  | cons x rest ih =>
    intro c hc
    cases rest with
    | nil =>
      right
      exact ⟨x, List.mem_cons_self x [], hc⟩
    | cons y rest' =>
      rcases List.mem_append.1 hc with h1 | h2
      · exact Or.inr ⟨x, List.mem_cons_self x _, h1⟩
      · rcases List.mem_cons.1 h2 with rfl | h3
        · exact Or.inl rfl
        · rcases ih h3 with h4 | ⟨part, hp, hcp⟩
          · exact Or.inl h4
          · exact Or.inr ⟨part, List.mem_cons_of_mem x hp, hcp⟩

/-- No character of a serialized closed ring is `'@'`. -/
theorem ringText_no_at (p : ℕ) (r : List Coordinate) :
    ∀ c ∈ joinSep ';' (r.map fun v => formatFixed p v.1 ++ ',' :: formatFixed p v.2),
      c ≠ '@' := by
  intro c hc
  rcases mem_joinSep hc with rfl | ⟨part, hpart, hcp⟩
  · decide
  · obtain ⟨v, -, rfl⟩ := List.mem_map.1 hpart
    exact (vertexText_chars_safe p v c hcp).2.2

/-- The serialized text of a non-empty ring is non-empty. -/
theorem ringText_ne_nil (p : ℕ) {r : List Coordinate} (hr : r ≠ []) :
    joinSep ';' (r.map fun v => formatFixed p v.1 ++ ',' :: formatFixed p v.2) ≠ [] := by
  obtain ⟨c, rest, rfl⟩ := List.exists_cons_of_ne_nil hr
  simp only [List.map_cons]
  exact joinSep_ne_nil (by simp)

/-- The rounding performed by fixed-point formatting moves a value by at
most half of the last kept decimal place. -/
theorem roundHalfEven_close (x : ℚ) : |(roundHalfEven x : ℚ) - x| ≤ 1 / 2 := by
  have h0 : (⌊x⌋ : ℚ) ≤ x := Int.floor_le x
  have h1 : x < (⌊x⌋ : ℚ) + 1 := Int.lt_floor_add_one x
  simp only [roundHalfEven]
  by_cases hc1 : x - (⌊x⌋ : ℚ) < 1 / 2
  · rw [if_pos hc1]
    exact abs_le.2 ⟨by linarith, by linarith⟩
  · rw [if_neg hc1]
    by_cases hc2 : 1 / 2 < x - (⌊x⌋ : ℚ)
    · rw [if_pos hc2]
      push_cast
      exact abs_le.2 ⟨by linarith, by linarith⟩
    · rw [if_neg hc2]
      have hhalf : x - (⌊x⌋ : ℚ) = 1 / 2 :=
        le_antisymm (not_lt.1 hc2) (not_lt.1 hc1)
      by_cases hpar : ⌊x⌋ % 2 = 0
      · rw [if_pos hpar]
        exact abs_le.2 ⟨by linarith, by linarith⟩
      · rw [if_neg hpar]
        push_cast
        exact abs_le.2 ⟨by linarith, by linarith⟩

/-- `rnd p` reproduces a value up to half a unit in the last of the `p`
kept decimal places. -/
theorem rnd_close (p : ℕ) (q : ℚ) : |rnd p q - q| ≤ 1 / (2 * 10 ^ p) := by
  have h10 : (0 : ℚ) < 10 ^ p := by positivity
  have hb := roundHalfEven_close (q * 10 ^ p)
  unfold rnd
  have heq : (roundHalfEven (q * 10 ^ p) : ℚ) / 10 ^ p - q
      = ((roundHalfEven (q * 10 ^ p) : ℚ) - q * 10 ^ p) / 10 ^ p := by
    field_simp
    ring
  rw [heq, abs_div, abs_of_pos h10]
  have h2 : (1 / 2 : ℚ) / 10 ^ p = 1 / (2 * 10 ^ p) := by ring
  rw [← h2]
  exact div_le_div_of_nonneg_right hb h10.le

/-- The per-ring step of `parse_shape_rings` inverts the serialization of a
list of closed non-empty rings. -/
theorem filterMap_rings_serialized (p : ℕ) :
    ∀ (rings : List (List Coordinate)),
      (∀ r ∈ rings, r ≠ [] ∧ r.head? = r.getLast?) →
      ((rings.map fun r =>
          joinSep ';' (r.map fun v => formatFixed p v.1 ++ ',' :: formatFixed p v.2)).filterMap
        fun raw =>
          let cs := parseRingCoords raw
          if cs = [] then none else some (closeRing cs))
      = rings.map (List.map fun v => (rnd p v.1, rnd p v.2)) := by
  intro rings
  induction rings with
  | nil => intro h; rfl
  | cons r rest ih =>
    intro h
    obtain ⟨hne, hcl⟩ := h r (List.mem_cons_self r rest)
    have hparsed := parseRingCoords_serialized p r hne
    have hmapne : (r.map fun v => (rnd p v.1, rnd p v.2)) ≠ [] := by
      intro hcon
      exact hne (List.map_eq_nil_iff.1 hcon)
    have hmapcl : (r.map fun v => (rnd p v.1, rnd p v.2)).head?
        = (r.map fun v => (rnd p v.1, rnd p v.2)).getLast? := by
      rw [List.head?_map, List.getLast?_map, hcl]
    simp only [List.map_cons, List.filterMap_cons, hparsed]
    rw [if_neg hmapne, closeRing_of_closed hmapcl]
    rw [ih (fun r' hr' => h r' (List.mem_cons_of_mem r hr'))]

/-- C3 (amended): for every list of non-empty CLOSED rings, parsing the
serialized shape string reproduces each coordinate rounded to the chosen
precision — hence within half a unit in the last decimal place — and every
ring of the output is again closed.  (Open rings do NOT survive a round
trip: the parser closes every ring, see the counterexample.) -/
theorem parse_serialize_roundtrip :
    ∀ (rings : List (List Coordinate)) (p : ℕ),
      (∀ r ∈ rings, r ≠ [] ∧ r.head? = r.getLast?) →
      parse_shape_rings (some (rings_to_shape_string rings p true))
          = rings.map (List.map fun v => (rnd p v.1, rnd p v.2)) ∧
      (∀ x : ℚ, |rnd p x - x| ≤ 1 / (2 * 10 ^ p)) ∧
      ∀ r ∈ parse_shape_rings (some (rings_to_shape_string rings p true)),
        r ≠ [] ∧ r.head? = r.getLast? := by
  intro rings p h
  have hmain : parse_shape_rings (some (rings_to_shape_string rings p true))
      = rings.map (List.map fun v => (rnd p v.1, rnd p v.2)) := by
    have htexts : rings.map (fun r => coordinates_to_shape_string r p true)
        = rings.map fun r =>
            joinSep ';' (r.map fun v => formatFixed p v.1 ++ ',' :: formatFixed p v.2) := by
      apply List.map_congr_left
      intro r hr
      exact coords_to_string_closed p r (h r hr).1 (h r hr).2
    unfold rings_to_shape_string
    rw [htexts]
    have hfilter : ((rings.map fun r =>
        joinSep ';' (r.map fun v => formatFixed p v.1 ++ ',' :: formatFixed p v.2)).filter
          (· ≠ []))
        = rings.map fun r =>
            joinSep ';' (r.map fun v => formatFixed p v.1 ++ ',' :: formatFixed p v.2) := by
      apply List.filter_eq_self.2
      intro a ha
      obtain ⟨r, hr, rfl⟩ := List.mem_map.1 ha
      exact decide_eq_true (ringText_ne_nil p (h r hr).1)
    rw [hfilter]
    cases hrings : rings with
    | nil => rfl
    | cons r0 rest =>
      have hne0 : joinSep ';'
          (r0.map fun v => formatFixed p v.1 ++ ',' :: formatFixed p v.2) ≠ [] :=
        ringText_ne_nil p (h r0 (by rw [hrings]; exact List.mem_cons_self r0 rest)).1
      have hjoin_ne : joinSep '@' ((r0 :: rest).map fun r =>
          joinSep ';' (r.map fun v => formatFixed p v.1 ++ ',' :: formatFixed p v.2)) ≠ [] := by
        simp only [List.map_cons]
        exact joinSep_ne_nil hne0
      simp only [parse_shape_rings]
      rw [if_neg hjoin_ne]
      rw [pySplit_joinSep (by simp)
        (by
          intro part hpart c hc
          obtain ⟨r, -, rfl⟩ := List.mem_map.1 hpart
          exact ringText_no_at p r c hc)]
      exact filterMap_rings_serialized p (r0 :: rest)
        (fun r' hr' => h r' (by rw [hrings]; exact hr'))
  refine ⟨hmain, rnd_close p, ?_⟩
  intro r hr
  obtain ⟨cs, hcs, rfl⟩ := mem_parse_shape_rings hr
  exact closeRing_spec cs hcs

/-- Witness for C3: the closed triangle ring
`[(1/2, 0), (1, 1), (1/2, 0)]` at precision 1 round-trips. -/
theorem parse_serialize_roundtrip_witness :
    (∀ r ∈ [[((1 : ℚ)/2, (0 : ℚ)), (1, 1), (1/2, 0)]], r ≠ [] ∧ r.head? = r.getLast?) ∧
    (parse_shape_rings
        (some (rings_to_shape_string [[((1 : ℚ)/2, (0 : ℚ)), (1, 1), (1/2, 0)]] 1 true))
        = [[((1 : ℚ)/2, (0 : ℚ)), (1, 1), (1/2, 0)]].map
            (List.map fun v => (rnd 1 v.1, rnd 1 v.2)) ∧
      (∀ x : ℚ, |rnd 1 x - x| ≤ 1 / (2 * 10 ^ 1)) ∧
      ∀ r ∈ parse_shape_rings
          (some (rings_to_shape_string [[((1 : ℚ)/2, (0 : ℚ)), (1, 1), (1/2, 0)]] 1 true)),
        r ≠ [] ∧ r.head? = r.getLast?) :=
  ⟨by with_unfolding_all decide,
   parse_serialize_roundtrip [[((1 : ℚ)/2, (0 : ℚ)), (1, 1), (1/2, 0)]] 1
     (by with_unfolding_all decide)⟩

/-- C3 counterexample: an OPEN ring does not round-trip — the parser closes
it, so the coordinates are not reproduced and the closure state flips from
open to closed; and an empty ring is dropped entirely. -/
theorem parse_serialize_roundtrip_cex :
    parse_shape_rings (some (rings_to_shape_string [[(0, 0), (1, 0)]] 1 true))
        = [[((0 : ℚ), (0 : ℚ)), (1, 0), (0, 0)]] ∧
    [((0 : ℚ), (0 : ℚ)), (1, 0)].head? ≠ [((0 : ℚ), (0 : ℚ)), (1, 0)].getLast? ∧
    ([((0 : ℚ), (0 : ℚ)), (1, 0), (0, 0)] : List Coordinate).head?
        = [((0 : ℚ), (0 : ℚ)), (1, 0), (0, 0)].getLast? ∧
    parse_shape_rings (some (rings_to_shape_string [([] : List Coordinate)] 1 true)) = [] := by
  refine ⟨by with_unfolding_all decide, by with_unfolding_all decide,
    by with_unfolding_all decide, by with_unfolding_all decide⟩
